import Mathlib

/-! Peer connection pool (`src/transport/PeerConnections.h`).

A shallow embedding of `chip::Transport::PeerConnections<kMaxConnectionCount, kTimeSource>`.

* A pointer into the pool is modelled by the index of the slot it points to:
  `some i` stands for `&mStates[i]`, `none` for `nullptr` (and for any pointer
  that lies before the array).
* The four lookups of the source loop while `now <= &mStates[kMaxConnectionCount]`,
  so they dereference `mStates[kMaxConnectionCount]`, which is not a slot of the
  array.  The embedding keeps that read visible: a lookup ends in
  `FindResult.outOfRange i` when it dereferences `mStates[i]` with `i` outside
  `0..kMaxConnectionCount-1`.
* The expiry callback is external code that receives the slot by const reference;
  its invocations are returned as a list of `ExpiredCall`s, in call order.
-/

namespace chip

/-- Modelled from the spec: `NodeId` is declared outside the given sources; a 64-bit
node identifier, kept as a natural number. -/
abbrev NodeId := Nat

/-- Modelled from the spec: the "undefined" peer node id (declared outside the given
sources). -/
def kUndefinedNodeId : NodeId := 0

/-- Modelled from the spec: the value of a key id that is "unset" (`UINT16_MAX`; the
declaration is outside the given sources). -/
def kUnsetKeyId : Nat := 0xFFFF

/-- The two results of the creation calls. -/
inductive CHIP_ERROR where
  | CHIP_NO_ERROR
  | CHIP_ERROR_NO_MEMORY
  deriving DecidableEq, Repr

namespace Transport

/-- Modelled from the spec: `PeerAddress` (`transport/raw/PeerAddress.h`) is not among
the given sources.  The spec describes it as "optional/uninitialized until known": it
is either `PeerAddress::Uninitialized()` or a known address, and `==` is equality of
the two values. -/
inductive PeerAddress where
  | Uninitialized
  | known (addr : Nat)
  deriving DecidableEq, Repr

/-- Modelled from the spec: `PeerAddress::IsInitialized()`. -/
def PeerAddress.IsInitialized : PeerAddress → Bool
  | .Uninitialized => false
  | .known _ => true

/-- Modelled from the spec: `PeerConnectionState` (`transport/PeerConnectionState.h`)
is not among the given sources.  The record of the spec's data model: peer address,
peer node id, peer and local session-key ids and the last-activity timestamp. -/
structure PeerConnectionState where
  mPeerAddress : PeerAddress
  mPeerNodeId : NodeId
  mPeerKeyID : Nat
  mLocalKeyID : Nat
  mLastActivityTimeMs : Nat
  deriving DecidableEq, Repr

namespace PeerConnectionState

/-- Modelled from the spec: the constructor `PeerConnectionState(const PeerAddress &)`;
every field but the address has its default (node id undefined, key ids unset). -/
def ofAddress (address : PeerAddress) : PeerConnectionState :=
  { mPeerAddress := address
    mPeerNodeId := kUndefinedNodeId
    mPeerKeyID := kUnsetKeyId
    mLocalKeyID := kUnsetKeyId
    mLastActivityTimeMs := 0 }

/-- Modelled from the spec: the default constructor `PeerConnectionState()`, the value
of every slot of a pool that was just constructed. -/
def new : PeerConnectionState := ofAddress PeerAddress.Uninitialized

/-- Modelled from the spec: `PeerConnectionState::IsInitialized()`.  A slot is
uninitialized exactly when its address is uninitialized, its peer node id is undefined
and both key ids are unset (the state `MarkConnectionExpired` resets a slot to). -/
def IsInitialized (s : PeerConnectionState) : Bool :=
  s.mPeerAddress.IsInitialized || s.mPeerNodeId != kUndefinedNodeId ||
    s.mPeerKeyID != kUnsetKeyId || s.mLocalKeyID != kUnsetKeyId

def GetPeerAddress (s : PeerConnectionState) : PeerAddress := s.mPeerAddress
def GetPeerNodeId (s : PeerConnectionState) : NodeId := s.mPeerNodeId
def GetPeerKeyID (s : PeerConnectionState) : Nat := s.mPeerKeyID
def GetLocalKeyID (s : PeerConnectionState) : Nat := s.mLocalKeyID
def GetLastActivityTimeMs (s : PeerConnectionState) : Nat := s.mLastActivityTimeMs

def SetPeerNodeId (s : PeerConnectionState) (id : NodeId) : PeerConnectionState :=
  { s with mPeerNodeId := id }
def SetPeerKeyID (s : PeerConnectionState) (id : Nat) : PeerConnectionState :=
  { s with mPeerKeyID := id }
def SetLocalKeyID (s : PeerConnectionState) (id : Nat) : PeerConnectionState :=
  { s with mLocalKeyID := id }
def SetLastActivityTimeMs (s : PeerConnectionState) (t : Nat) : PeerConnectionState :=
  { s with mLastActivityTimeMs := t }

end PeerConnectionState

/-- One invocation of the registered expiry callback: the handler that ran, the slot
contents it was given and the context argument. -/
structure ExpiredCall where
  handler : Nat
  state : PeerConnectionState
  param : Nat
  deriving DecidableEq, Repr

/-- The pool object.  `mTimeSource` is the value `GetCurrentMonotonicTimeMs()` returns,
`mStates` the array of `kMaxConnectionCount` slots, `OnConnectionExpired` the registered
handler (`none` for `nullptr`) and `mConnectionExpiredArgument` its context. -/
structure PeerConnections where
  mTimeSource : Nat
  mStates : List PeerConnectionState
  OnConnectionExpired : Option Nat
  mConnectionExpiredArgument : Nat
  deriving DecidableEq, Repr

/-- Result of a creation call: the error code, the value written to `*state` and the
pool afterwards. -/
structure CreateResult where
  err : CHIP_ERROR
  state : Option Nat
  pool : PeerConnections
  deriving DecidableEq, Repr

/-- Result of a lookup: a slot of the pool, `nullptr`, or the scan dereferenced
`mStates[i]` for an index `i` that is not a slot of the array. -/
inductive FindResult where
  | found (i : Nat)
  | notFound
  | outOfRange (i : Nat)
  deriving DecidableEq, Repr

namespace PeerConnections

/-- The template parameter `kMaxConnectionCount`. -/
def kMaxConnectionCount (p : PeerConnections) : Nat := p.mStates.length

/-- A pool as constructed: every slot default-constructed, no handler registered. -/
def empty (n : Nat) (t : Nat) : PeerConnections :=
  { mTimeSource := t
    mStates := List.replicate n PeerConnectionState.new
    OnConnectionExpired := none
    mConnectionExpiredArgument := 0 }

/-- The reading `mTimeSource.GetCurrentMonotonicTimeMs()`. -/
def GetCurrentMonotonicTimeMs (p : PeerConnections) : Nat := p.mTimeSource

/-- The loop `for (size_t i = 0; i < kMaxConnectionCount; i++)` of both creation calls,
entered at index `i` with `fuel = kMaxConnectionCount - i` iterations left; `fresh` is
the value the body stores into the first uninitialized slot. -/
def createLoop (p : PeerConnections) (fresh : PeerConnectionState) :
    Nat → Nat → CreateResult
  | 0, _ => ⟨CHIP_ERROR.CHIP_ERROR_NO_MEMORY, none, p⟩
  | fuel + 1, i =>
    match p.mStates[i]? with
    | none => ⟨CHIP_ERROR.CHIP_ERROR_NO_MEMORY, none, p⟩
    | some s =>
      if !s.IsInitialized then
        ⟨CHIP_ERROR.CHIP_NO_ERROR, some i, { p with mStates := p.mStates.set i fresh }⟩
      else
        createLoop p fresh fuel (i + 1)

/-- `CreateNewPeerConnectionState(const PeerAddress & address, PeerConnectionState ** state)`. -/
def CreateNewPeerConnectionState (p : PeerConnections) (address : PeerAddress) :
    CreateResult :=
  createLoop p
    ((PeerConnectionState.ofAddress address).SetLastActivityTimeMs p.GetCurrentMonotonicTimeMs)
    p.kMaxConnectionCount 0

/-- The slot contents the key-qualified creation call stores. -/
def freshByKeys (t : Nat) (peerNode : Option NodeId) (peerKeyId localKeyId : Nat) :
    PeerConnectionState :=
  let s := ((PeerConnectionState.new.SetPeerKeyID peerKeyId).SetLocalKeyID
    localKeyId).SetLastActivityTimeMs t
  match peerNode with
  | some n => s.SetPeerNodeId n
  | none => s

/-- `CreateNewPeerConnectionState(const Optional<NodeId> & peerNode, uint16_t peerKeyId,
uint16_t localKeyId, PeerConnectionState ** state)`. -/
def CreateNewPeerConnectionStateByKeys (p : PeerConnections) (peerNode : Option NodeId)
    (peerKeyId localKeyId : Nat) : CreateResult :=
  createLoop p (freshByKeys p.GetCurrentMonotonicTimeMs peerNode peerKeyId localKeyId)
    p.kMaxConnectionCount 0

/-- The first slot a lookup visits: `now = &mStates[0]`, replaced by `begin + 1` when
`begin >= now && begin <= &mStates[kMaxConnectionCount]`. -/
def scanStart (p : PeerConnections) (begin : Option Nat) : Nat :=
  match begin with
  | none => 0
  | some b => if b ≤ p.kMaxConnectionCount then b + 1 else 0

/-- The loop `for (; now <= &mStates[kMaxConnectionCount]; now++)` shared by the four
lookups, entered at slot index `now` with `fuel = kMaxConnectionCount + 1 - now`
iterations left; `hit` is the test of the loop body. -/
def scanLoop (hit : PeerConnectionState → Bool) (slots : List PeerConnectionState) :
    Nat → Nat → FindResult
  | 0, _ => FindResult.notFound
  | fuel + 1, now =>
    match slots[now]? with
    | none => FindResult.outOfRange now
    | some s => if hit s then FindResult.found now else scanLoop hit slots fuel (now + 1)

/-- A lookup: start slot from `begin`, then the scan. -/
def scanFrom (p : PeerConnections) (hit : PeerConnectionState → Bool) (begin : Option Nat) :
    FindResult :=
  scanLoop hit p.mStates (p.kMaxConnectionCount + 1 - p.scanStart begin) (p.scanStart begin)

/-- Loop body of `FindPeerConnectionState(const PeerAddress &, PeerConnectionState *)`. -/
def hitAddress (address : PeerAddress) (s : PeerConnectionState) : Bool :=
  s.GetPeerAddress == address

/-- Loop body of `FindPeerConnectionState(NodeId, PeerConnectionState *)`. -/
def hitNodeId (nodeId : NodeId) (s : PeerConnectionState) : Bool :=
  if !s.IsInitialized then false
  else if s.GetPeerNodeId == nodeId then true
  else false

/-- Loop body of `FindPeerConnectionState(Optional<NodeId>, uint16_t, PeerConnectionState *)`. -/
def hitPeerKey (nodeId : Option NodeId) (peerKeyId : Nat) (s : PeerConnectionState) : Bool :=
  if !s.IsInitialized then false
  else if s.GetPeerKeyID == peerKeyId then
    if nodeId.isNone || s.GetPeerNodeId == kUndefinedNodeId ||
        some s.GetPeerNodeId == nodeId then true
    else false
  else false

/-- Loop body of `FindPeerConnectionStateByLocalKey`. -/
def hitLocalKey (nodeId : Option NodeId) (localKeyId : Nat) (s : PeerConnectionState) : Bool :=
  if !s.IsInitialized then false
  else if s.GetLocalKeyID == localKeyId then
    if nodeId.isNone || s.GetPeerNodeId == kUndefinedNodeId ||
        some s.GetPeerNodeId == nodeId then true
    else false
  else false

/-- `FindPeerConnectionState(const PeerAddress & address, PeerConnectionState * begin)`. -/
def FindPeerConnectionState (p : PeerConnections) (address : PeerAddress)
    (begin : Option Nat) : FindResult :=
  p.scanFrom (hitAddress address) begin

/-- `FindPeerConnectionState(NodeId nodeId, PeerConnectionState * begin)`. -/
def FindPeerConnectionStateByNodeId (p : PeerConnections) (nodeId : NodeId)
    (begin : Option Nat) : FindResult :=
  p.scanFrom (hitNodeId nodeId) begin

/-- `FindPeerConnectionState(Optional<NodeId> nodeId, uint16_t peerKeyId,
PeerConnectionState * begin)`. -/
def FindPeerConnectionStateByPeerKey (p : PeerConnections) (nodeId : Option NodeId)
    (peerKeyId : Nat) (begin : Option Nat) : FindResult :=
  p.scanFrom (hitPeerKey nodeId peerKeyId) begin

/-- `FindPeerConnectionStateByLocalKey(Optional<NodeId> nodeId, uint16_t localKeyId,
PeerConnectionState * begin)`. -/
def FindPeerConnectionStateByLocalKey (p : PeerConnections) (nodeId : Option NodeId)
    (localKeyId : Nat) (begin : Option Nat) : FindResult :=
  p.scanFrom (hitLocalKey nodeId localKeyId) begin

/-- `MarkConnectionActive(PeerConnectionState * state)`, `state == &mStates[i]`. -/
def MarkConnectionActive (p : PeerConnections) (i : Nat) : PeerConnections :=
  match p.mStates[i]? with
  | none => p
  | some s =>
    { p with mStates := p.mStates.set i (s.SetLastActivityTimeMs p.GetCurrentMonotonicTimeMs) }

/-- `MarkConnectionExpired(PeerConnectionState * state)`, `state == &mStates[i]`: the
callback runs on the slot contents when a handler is registered, then the slot is
overwritten with `PeerConnectionState(PeerAddress::Uninitialized())`. -/
def MarkConnectionExpired (p : PeerConnections) (i : Nat) :
    PeerConnections × List ExpiredCall :=
  match p.mStates[i]? with
  | none => (p, [])
  | some s =>
    ({ p with mStates := p.mStates.set i (PeerConnectionState.ofAddress PeerAddress.Uninitialized) },
      match p.OnConnectionExpired with
      | some h => [⟨h, s, p.mConnectionExpiredArgument⟩]
      | none => [])

/-- The loop of `ExpireInactiveConnections`, entered at index `i` with
`fuel = kMaxConnectionCount - i` iterations left.  The sum
`connectionActiveTime + maxIdleTimeMs` is a `uint64_t` sum. -/
def expireLoop (maxIdleTimeMs currentTime : Nat) :
    Nat → Nat → PeerConnections → PeerConnections × List ExpiredCall
  | 0, _, p => (p, [])
  | fuel + 1, i, p =>
    match p.mStates[i]? with
    | none => (p, [])
    | some s =>
      if !s.GetPeerAddress.IsInitialized then
        expireLoop maxIdleTimeMs currentTime fuel (i + 1) p
      else if (s.GetLastActivityTimeMs + maxIdleTimeMs) % 2 ^ 64 ≥ currentTime then
        expireLoop maxIdleTimeMs currentTime fuel (i + 1) p
      else
        let r := p.MarkConnectionExpired i
        let r2 := expireLoop maxIdleTimeMs currentTime fuel (i + 1) r.1
        (r2.1, r.2 ++ r2.2)

/-- `ExpireInactiveConnections(uint64_t maxIdleTimeMs)`. -/
def ExpireInactiveConnections (p : PeerConnections) (maxIdleTimeMs : Nat) :
    PeerConnections × List ExpiredCall :=
  expireLoop maxIdleTimeMs p.GetCurrentMonotonicTimeMs p.kMaxConnectionCount 0 p

/-- `SetConnectionExpiredHandler(handler, param)`; the function pointer `handler` may be
`nullptr` (`none`). -/
def SetConnectionExpiredHandler (p : PeerConnections) (handler : Option Nat) (param : Nat) :
    PeerConnections :=
  { p with mConnectionExpiredArgument := param, OnConnectionExpired := handler }

/-- Slot `i` exists and is uninitialized (free). -/
def isFree (p : PeerConnections) (i : Nat) : Bool :=
  match p.mStates[i]? with
  | some s => !s.IsInitialized
  | none => false

/-- Slot `i` exists and is initialized (holds a connection). -/
def isLive (p : PeerConnections) (i : Nat) : Bool :=
  match p.mStates[i]? with
  | some s => s.IsInitialized
  | none => false

/-- Slot `i` exists and the loop body `hit` accepts it. -/
def hitsAt (p : PeerConnections) (hit : PeerConnectionState → Bool) (i : Nat) : Bool :=
  match p.mStates[i]? with
  | some s => hit s
  | none => false

/-- One creation call of either variant, with its arguments. -/
inductive CreateCall where
  | byAddress (address : PeerAddress)
  | byKeys (peerNode : Option NodeId) (peerKeyId localKeyId : Nat)
  deriving DecidableEq, Repr

/-- Run one creation call. -/
def CreateCall.run (p : PeerConnections) : CreateCall → CreateResult
  | CreateCall.byAddress address => p.CreateNewPeerConnectionState address
  | CreateCall.byKeys peerNode peerKeyId localKeyId =>
    p.CreateNewPeerConnectionStateByKeys peerNode peerKeyId localKeyId

/-- The arguments of the call are not all "unset": an initialized address, or a peer node
id other than the undefined one, or a key id other than the unset value. -/
def CreateCall.initializes : CreateCall → Bool
  | CreateCall.byAddress address => address.IsInitialized
  | CreateCall.byKeys peerNode peerKeyId localKeyId =>
    (peerNode.isSome && peerNode != some kUndefinedNodeId) ||
      peerKeyId != kUnsetKeyId || localKeyId != kUnsetKeyId

/-- A sequence of creation calls; each call comes with the reading the time source has
when it runs.  Returns the final pool and the error codes in call order. -/
def runCreates (p : PeerConnections) : List (Nat × CreateCall) → PeerConnections × List CHIP_ERROR
  | [] => (p, [])
  | (t, c) :: rest =>
    let r := c.run { p with mTimeSource := t }
    let q := runCreates r.pool rest
    (q.1, r.err :: q.2)

/-- The caller's enumeration loop: call `find` with `nullptr`, then with the handle it
returned, until the result is not a slot.  Returns the handles in the order they were
returned and the result that ended the loop (`none`: more than `fuel` calls). -/
def enumerate (find : Option Nat → FindResult) : Nat → Option Nat → List Nat × Option FindResult
  | 0, _ => ([], none)
  | fuel + 1, begin =>
    match find begin with
    | FindResult.found i =>
      let r := enumerate find fuel (some i)
      (i :: r.1, r.2)
    | FindResult.notFound => ([], some FindResult.notFound)
    | FindResult.outOfRange i => ([], some (FindResult.outOfRange i))

/-- The slot contents a creation call stores when the time source reads `t`. -/
def CreateCall.fresh (t : Nat) : CreateCall → PeerConnectionState
  | CreateCall.byAddress address =>
    (PeerConnectionState.ofAddress address).SetLastActivityTimeMs t
  | CreateCall.byKeys peerNode peerKeyId localKeyId =>
    freshByKeys t peerNode peerKeyId localKeyId

/-- The test of the sweep on slot `i`: the slot has an initialized address and
`connectionActiveTime + maxIdleTimeMs >= currentTime` (a `uint64_t` sum) is false. -/
def sweepExpires (p : PeerConnections) (maxIdleTimeMs : Nat) (i : Nat) : Bool :=
  match p.mStates[i]? with
  | some s =>
    s.GetPeerAddress.IsInitialized &&
      !decide ((s.GetLastActivityTimeMs + maxIdleTimeMs) % 2 ^ 64 ≥ p.GetCurrentMonotonicTimeMs)
  | none => false

/-- Slot `i` exists and its contents satisfy `P`. -/
def slotSatisfies (p : PeerConnections) (i : Nat) (P : PeerConnectionState → Prop) : Prop :=
  ∃ s, p.mStates[i]? = some s ∧ P s

/-- The matching rule of the peer-key lookup in the words of the spec: the slot is
initialized, its peer key id is the requested one, and either no node id was requested,
or the slot's peer node id is undefined, or it equals the requested node id. -/
def matchesPeerKeyRule (nodeId : Option NodeId) (peerKeyId : Nat)
    (s : PeerConnectionState) : Prop :=
  s.IsInitialized = true ∧ s.GetPeerKeyID = peerKeyId ∧
    (nodeId = none ∨ s.GetPeerNodeId = kUndefinedNodeId ∨ some s.GetPeerNodeId = nodeId)

/-- The matching rule of the local-key lookup in the words of the spec. -/
def matchesLocalKeyRule (nodeId : Option NodeId) (localKeyId : Nat)
    (s : PeerConnectionState) : Prop :=
  s.IsInitialized = true ∧ s.GetLocalKeyID = localKeyId ∧
    (nodeId = none ∨ s.GetPeerNodeId = kUndefinedNodeId ∨ some s.GetPeerNodeId = nodeId)

/-- The slots that pass the test of the sweep, in increasing slot order. -/
def sweptSlots (p : PeerConnections) (maxIdleTimeMs : Nat) : List Nat :=
  (List.range p.kMaxConnectionCount).filter (fun i => p.sweepExpires maxIdleTimeMs i)

/-- The invocation of handler `h` on slot `i` of `p`: the slot contents and the
registered context. -/
def callFor (p : PeerConnections) (h : Nat) (i : Nat) : Option ExpiredCall :=
  match p.mStates[i]? with
  | some s => some ⟨h, s, p.mConnectionExpiredArgument⟩
  | none => none

end PeerConnections

end Transport

/-! Fixed-secret pairing session (`src/transport/SecurePairingSession.h`). -/

/-- Modelled from the spec: `kMAX_Hash_Length` (`crypto/CHIPCryptoPAL.h`, not among the
given sources), the size of the Ke buffer: the length of a SHA-256 digest. -/
def kMAX_Hash_Length : Nat := 32

/-- The protected data members of `SecurePairingSession`; bytes are natural numbers
below 256, `mKe` is the buffer `uint8_t mKe[kMAX_Hash_Length]`. -/
structure SecurePairingSession where
  mLocalNodeId : Option NodeId
  mPeerNodeId : Option NodeId
  mLocalKeyId : Nat
  mPeerKeyId : Nat
  mKe : List Nat
  mKeLen : Nat
  mPairingComplete : Bool
  deriving DecidableEq, Repr

/-- `memmove(dst, src, n)` on byte buffers: the first `n` bytes of `dst` are replaced
by the first `n` bytes of `src`. -/
def memmove (dst src : List Nat) (n : Nat) : List Nat :=
  src.take n ++ dst.drop n

namespace SecurePairingUsingTestSecret

/-- The literal `"Test secret for key derivation"`. -/
def secretText : String := "Test secret for key derivation"

/-- The bytes of the literal, without the terminating NUL. -/
def secret : List Nat := secretText.toList.map Char.toNat

/-- `strlen(secret)`. -/
def secretLen : Nat := secret.length

/-- `SecurePairingUsingTestSecret()`; `base` is the object after the construction of
the `SecurePairingSession` base class (its key ids and Ke buffer are indeterminate). -/
def construct (base : SecurePairingSession) : SecurePairingSession :=
  { base with
    mKeLen := secretLen
    mKe := memmove base.mKe secret secretLen
    mPairingComplete := true }

/-- `SecurePairingUsingTestSecret(Optional<NodeId> peerNodeId, uint16_t peerKeyId,
uint16_t localKeyId)`. -/
def constructWithIds (base : SecurePairingSession) (peerNodeId : Option NodeId)
    (peerKeyId localKeyId : Nat) : SecurePairingSession :=
  { base with
    mPeerNodeId := peerNodeId
    mPeerKeyId := peerKeyId
    mLocalKeyId := localKeyId
    mKeLen := secretLen
    mKe := memmove base.mKe secret secretLen
    mPairingComplete := true }

/-- `SecurePairingUsingTestSecret::WaitForPairing`: returns `CHIP_NO_ERROR`. -/
def WaitForPairing (s : SecurePairingSession) (_mySetUpPINCode _pbkdf2IterCount : Nat)
    (_salt : List Nat) (_myNodeId : Option NodeId) (_myKeyId : Nat) (_delegate : Option Nat) :
    CHIP_ERROR × SecurePairingSession :=
  (CHIP_ERROR.CHIP_NO_ERROR, s)

/-- `SecurePairingUsingTestSecret::Pair`: returns `CHIP_NO_ERROR`. -/
def Pair (s : SecurePairingSession) (_peerSetUpPINCode _pbkdf2IterCount : Nat)
    (_salt : List Nat) (_myNodeId : Option NodeId) (_myKeyId : Nat) (_delegate : Option Nat) :
    CHIP_ERROR × SecurePairingSession :=
  (CHIP_ERROR.CHIP_NO_ERROR, s)

/-- `SecurePairingUsingTestSecret::HandlePeerMessage`: returns `CHIP_NO_ERROR`. -/
def HandlePeerMessage (s : SecurePairingSession) (_packetHeader : List Nat)
    (_peerAddress : Transport.PeerAddress) (_msg : List Nat) :
    CHIP_ERROR × SecurePairingSession :=
  (CHIP_ERROR.CHIP_NO_ERROR, s)

end SecurePairingUsingTestSecret

/-- `struct SecurePairingSessionSerializable`: `uint16_t mKeLen`,
`uint8_t mKe[kMAX_Hash_Length]`, `uint8_t mPairingComplete`, two `uint64_t` node ids
and two `uint16_t` key ids. -/
structure SecurePairingSessionSerializable where
  mKeLen : Nat
  mKe : List Nat
  mPairingComplete : Nat
  mLocalNodeId : Nat
  mPeerNodeId : Nat
  mLocalKeyId : Nat
  mPeerKeyId : Nat
  deriving DecidableEq, Repr

namespace SecurePairingSession

/-- Modelled from the spec: `SecurePairingSession::ToSerializable` is only declared in
the given header.  It fills the fixed-layout record of the spec: the Ke length (16 bit),
the Ke bytes in a buffer of the fixed maximum size (zero past the Ke length), the
completion flag (8 bit), the node ids (64 bit; the undefined id for an `Optional`
without a value) and the key ids (16 bit).  It fails when the Ke length exceeds the
buffer. -/
def ToSerializable (s : SecurePairingSession) : Option SecurePairingSessionSerializable :=
  if s.mKeLen ≤ kMAX_Hash_Length then
    some
      { mKeLen := s.mKeLen % 2 ^ 16
        mKe := s.mKe.take s.mKeLen ++ List.replicate (kMAX_Hash_Length - s.mKeLen) 0
        mPairingComplete := if s.mPairingComplete then 1 else 0
        mLocalNodeId := s.mLocalNodeId.getD kUndefinedNodeId % 2 ^ 64
        mPeerNodeId := s.mPeerNodeId.getD kUndefinedNodeId % 2 ^ 64
        mLocalKeyId := s.mLocalKeyId % 2 ^ 16
        mPeerKeyId := s.mPeerKeyId % 2 ^ 16 }
  else none

/-- Modelled from the spec: `SecurePairingSession::FromSerializable` is only declared in
the given header.  It rejects a record whose Ke length exceeds the Ke buffer ("strict
length validation") and otherwise loads every field of the record into the session. -/
def FromSerializable (s : SecurePairingSession) (r : SecurePairingSessionSerializable) :
    Option SecurePairingSession :=
  if r.mKeLen ≤ kMAX_Hash_Length then
    some
      { s with
        mKeLen := r.mKeLen
        mKe := r.mKe.take r.mKeLen ++ List.replicate (kMAX_Hash_Length - r.mKeLen) 0
        mPairingComplete := r.mPairingComplete != 0
        mLocalNodeId := some r.mLocalNodeId
        mPeerNodeId := some r.mPeerNodeId
        mLocalKeyId := r.mLocalKeyId
        mPeerKeyId := r.mPeerKeyId }
  else none

/-- Modelled from the spec: `SecurePairingSession::Serialize` is only declared in the
given header.  The record of `ToSerializable`, text-armored; `armor` is the armoring of
the record (`support/Base64.h`, not among the given sources). -/
def Serialize (armor : SecurePairingSessionSerializable → List Nat)
    (s : SecurePairingSession) : Option (List Nat) :=
  match s.ToSerializable with
  | some r => some (armor r)
  | none => none

/-- Modelled from the spec: `SecurePairingSession::Deserialize` is only declared in the
given header.  The text is de-armored (`dearmor` fails on malformed or truncated text)
and the record is loaded with `FromSerializable`. -/
def Deserialize (dearmor : List Nat → Option SecurePairingSessionSerializable)
    (s : SecurePairingSession) (input : List Nat) : Option SecurePairingSession :=
  match dearmor input with
  | some r => s.FromSerializable r
  | none => none

end SecurePairingSession

/-- Modelled from the spec: the bytes of an unsigned field of `w` bytes in the fixed
layout of the serialized record, least significant byte first. -/
def toBytesLE : Nat → Nat → List Nat
  | 0, _ => []
  | w + 1, n => n % 256 :: toBytesLE w (n / 256)

/-- Modelled from the spec: the value of an unsigned field from its bytes, least
significant byte first. -/
def fromBytesLE : List Nat → Nat
  | [] => 0
  | b :: bs => b + 256 * fromBytesLE bs

/-- Modelled from the spec: the fixed layout of the serialized record, field after
field: Ke length (16 bit), Ke bytes (fixed maximum), completion flag (8 bit), local and
peer node id (64 bit each), local and peer key id (16 bit each). -/
def serializableBytes (r : SecurePairingSessionSerializable) : List Nat :=
  toBytesLE 2 r.mKeLen ++ (r.mKe ++ (toBytesLE 1 r.mPairingComplete ++
    (toBytesLE 8 r.mLocalNodeId ++ (toBytesLE 8 r.mPeerNodeId ++
      (toBytesLE 2 r.mLocalKeyId ++ toBytesLE 2 r.mPeerKeyId)))))

/-- The number of bytes of the fixed layout. -/
def kSerializableLength : Nat := 2 + kMAX_Hash_Length + 1 + 8 + 8 + 2 + 2

/-- Modelled from the spec: reading the record back from the bytes of the fixed layout,
with strict length validation: a byte sequence that is shorter (truncation) or longer
(overflow) than the layout is rejected. -/
def serializableOfBytes (bytes : List Nat) : Option SecurePairingSessionSerializable :=
  if bytes.length = kSerializableLength then
    let afterKeLen := bytes.drop 2
    let afterKe := afterKeLen.drop kMAX_Hash_Length
    let afterComplete := afterKe.drop 1
    let afterLocalNodeId := afterComplete.drop 8
    let afterPeerNodeId := afterLocalNodeId.drop 8
    let afterLocalKeyId := afterPeerNodeId.drop 2
    some
      { mKeLen := fromBytesLE (bytes.take 2)
        mKe := afterKeLen.take kMAX_Hash_Length
        mPairingComplete := fromBytesLE (afterKe.take 1)
        mLocalNodeId := fromBytesLE (afterComplete.take 8)
        mPeerNodeId := fromBytesLE (afterLocalNodeId.take 8)
        mLocalKeyId := fromBytesLE (afterPeerNodeId.take 2)
        mPeerKeyId := fromBytesLE (afterLocalKeyId.take 2) }
  else none

/-- Modelled from the spec: the character (its ASCII code) of a 6-bit value in the
Base64 text armor (`support/Base64.h`, which the header includes, is not among the
given sources): `A`..`Z`, `a`..`z`, `0`..`9`, `+`, `/`. -/
def Base64ValToChar (v : Nat) : Nat :=
  if v < 26 then 65 + v
  else if v < 52 then 97 + (v - 26)
  else if v < 62 then 48 + (v - 52)
  else if v = 62 then 43
  else 47

/-- Modelled from the spec: the 6-bit value of a Base64 character, `none` for a
character outside the alphabet. -/
def Base64CharToVal (c : Nat) : Option Nat :=
  if 65 ≤ c ∧ c ≤ 90 then some (c - 65)
  else if 97 ≤ c ∧ c ≤ 122 then some (c - 97 + 26)
  else if 48 ≤ c ∧ c ≤ 57 then some (c - 48 + 52)
  else if c = 43 then some 62
  else if c = 47 then some 63
  else none

/-- Modelled from the spec: `Base64Encode`, the text armor: three bytes become four
characters, a last group of one or two bytes is padded with `=` (code 61). -/
def Base64Encode : List Nat → List Nat
  | a :: b :: c :: rest =>
    Base64ValToChar (a / 4) :: Base64ValToChar (a % 4 * 16 + b / 16) ::
      Base64ValToChar (b % 16 * 4 + c / 64) :: Base64ValToChar (c % 64) :: Base64Encode rest
  | [a, b] =>
    [Base64ValToChar (a / 4), Base64ValToChar (a % 4 * 16 + b / 16),
      Base64ValToChar (b % 16 * 4), 61]
  | [a] => [Base64ValToChar (a / 4), Base64ValToChar (a % 4 * 16), 61, 61]
  | [] => []

/-- Modelled from the spec: `Base64Decode`: four characters become three bytes; text
whose length is not a multiple of four, that has a character outside the alphabet, or
that has padding anywhere but at its end is rejected. -/
def Base64Decode : List Nat → Option (List Nat)
  | c0 :: c1 :: c2 :: c3 :: rest =>
    match Base64CharToVal c0, Base64CharToVal c1 with
    | some v0, some v1 =>
      if c2 = 61 then
        if c3 = 61 ∧ rest = [] then some [v0 * 4 + v1 / 16] else none
      else
        match Base64CharToVal c2 with
        | none => none
        | some v2 =>
          if c3 = 61 then
            if rest = [] then some [v0 * 4 + v1 / 16, v1 % 16 * 16 + v2 / 4] else none
          else
            match Base64CharToVal c3 with
            | none => none
            | some v3 =>
              match Base64Decode rest with
              | none => none
              | some bytes =>
                some ([v0 * 4 + v1 / 16, v1 % 16 * 16 + v2 / 4, v2 % 4 * 64 + v3] ++ bytes)
    | _, _ => none
  | [] => some []
  | _ => none

namespace SecurePairingSession

/-- Modelled from the spec: the text armor of `Serialize`: the bytes of the fixed
layout, Base64-encoded. -/
def armorBase64 (r : SecurePairingSessionSerializable) : List Nat :=
  Base64Encode (serializableBytes r)

/-- Modelled from the spec: the de-armoring of `Deserialize`: Base64-decode the text,
then read the record from the bytes with strict length validation. -/
def dearmorBase64 (text : List Nat) : Option SecurePairingSessionSerializable :=
  match Base64Decode text with
  | some bytes => serializableOfBytes bytes
  | none => none

end SecurePairingSession

namespace Transport

namespace PeerConnections

/-! ## The creation loop -/

theorem isFree_lt {p : PeerConnections} {i : Nat} (h : p.isFree i = true) :
    i < p.kMaxConnectionCount := by
  unfold isFree at h
  unfold kMaxConnectionCount
  by_contra hc
  rw [List.getElem?_eq_none (by omega)] at h
  simp at h

theorem isLive_lt {p : PeerConnections} {i : Nat} (h : p.isLive i = true) :
    i < p.kMaxConnectionCount := by
  unfold isLive at h
  unfold kMaxConnectionCount
  by_contra hc
  rw [List.getElem?_eq_none (by omega)] at h
  simp at h

theorem isFree_eq_not_isLive {p : PeerConnections} {i : Nat} (h : i < p.kMaxConnectionCount) :
    p.isFree i = !p.isLive i := by
  unfold kMaxConnectionCount at h
  unfold isFree isLive
  rw [List.getElem?_eq_getElem h]

theorem createLoop_full (p : PeerConnections) (fresh : PeerConnectionState) :
    ∀ fuel i, (∀ j, i ≤ j → p.isFree j = false) →
      createLoop p fresh fuel i = ⟨CHIP_ERROR.CHIP_ERROR_NO_MEMORY, none, p⟩ := by
  intro fuel
  induction fuel with
  | zero => intro i _; rfl
  | succ n ih =>
    intro i h
    have hi := h i (le_refl i)
    unfold isFree at hi
    unfold createLoop
    cases hs : p.mStates[i]? with
    | none => rfl
    | some s =>
      rw [hs] at hi
      simp only [Bool.not_eq_false_eq_eq_true, Bool.not_eq_false, Bool.not_eq_eq_eq_not,
        Bool.not_false] at hi
      simp only [hi, Bool.not_true, Bool.false_eq_true, if_false]
      exact ih (i + 1) (fun j hj => h j (by omega))

theorem createLoop_first (p : PeerConnections) (fresh : PeerConnectionState) :
    ∀ fuel i k, i ≤ k → k < i + fuel → p.isFree k = true →
      (∀ j, i ≤ j → j < k → p.isFree j = false) →
      createLoop p fresh fuel i =
        ⟨CHIP_ERROR.CHIP_NO_ERROR, some k, { p with mStates := p.mStates.set k fresh }⟩ := by
  intro fuel
  induction fuel with
  | zero => intro i k h1 h2; omega
  | succ n ih =>
    intro i k h1 h2 hk hlow
    have hkN := isFree_lt hk
    unfold kMaxConnectionCount at hkN
    unfold createLoop
    have hiN : i < p.mStates.length := by omega
    rw [List.getElem?_eq_getElem hiN]
    by_cases hik : i = k
    · subst hik
      simp only [isFree, List.getElem?_eq_getElem hiN] at hk
      simp only [hk, if_true]
    · have hfi := hlow i (le_refl i) (by omega)
      simp only [isFree, List.getElem?_eq_getElem hiN] at hfi
      simp only [hfi, Bool.false_eq_true, if_false]
      exact ih (i + 1) k (by omega) (by omega) hk (fun j hj1 hj2 => hlow j (by omega) hj2)

/-- A free slot gives a lowest free slot. -/
theorem exists_lowest_free {p : PeerConnections} {i : Nat} (h : p.isFree i = true) :
    ∃ k, k ≤ i ∧ p.isFree k = true ∧ ∀ j, j < k → p.isFree j = false := by
  classical
  have hex : ∃ k, p.isFree k = true := ⟨i, h⟩
  refine ⟨Nat.find hex, Nat.find_min' hex h, Nat.find_spec hex, ?_⟩
  intro j hj
  have := Nat.find_min hex hj
  simpa using this

/-! ## The lookup loop -/

theorem hitsAt_lt {p : PeerConnections} {hit : PeerConnectionState → Bool} {i : Nat}
    (h : p.hitsAt hit i = true) : i < p.kMaxConnectionCount := by
  unfold hitsAt at h
  unfold kMaxConnectionCount
  by_contra hc
  rw [List.getElem?_eq_none (by omega)] at h
  simp at h

theorem scanLoop_found (p : PeerConnections) (hit : PeerConnectionState → Bool) :
    ∀ fuel now k, now ≤ k → k < now + fuel → p.hitsAt hit k = true →
      (∀ j, now ≤ j → j < k → p.hitsAt hit j = false) →
      scanLoop hit p.mStates fuel now = FindResult.found k := by
  intro fuel
  induction fuel with
  | zero => intro now k h1 h2; omega
  | succ n ih =>
    intro now k h1 h2 hk hlow
    have hkN := hitsAt_lt hk
    unfold kMaxConnectionCount at hkN
    have hiN : now < p.mStates.length := by omega
    unfold scanLoop
    rw [List.getElem?_eq_getElem hiN]
    by_cases hik : now = k
    · subst hik
      simp only [hitsAt, List.getElem?_eq_getElem hiN] at hk
      simp only [hk, if_true]
    · have hfi := hlow now (le_refl now) (by omega)
      simp only [hitsAt, List.getElem?_eq_getElem hiN] at hfi
      simp only [hfi, Bool.false_eq_true, if_false]
      exact ih (now + 1) k (by omega) (by omega) hk (fun j hj1 hj2 => hlow j (by omega) hj2)

theorem scanLoop_past_end (p : PeerConnections) (hit : PeerConnectionState → Bool) :
    ∀ fuel now, now ≤ p.kMaxConnectionCount → p.kMaxConnectionCount < now + fuel →
      (∀ j, now ≤ j → p.hitsAt hit j = false) →
      scanLoop hit p.mStates fuel now = FindResult.outOfRange p.kMaxConnectionCount := by
  intro fuel
  induction fuel with
  | zero => intro now h1 h2; omega
  | succ n ih =>
    intro now h1 h2 hno
    unfold scanLoop
    by_cases hN : now = p.kMaxConnectionCount
    · have : p.mStates[now]? = none := by
        rw [List.getElem?_eq_none]
        unfold kMaxConnectionCount at hN
        omega
      rw [this, hN]
    · unfold kMaxConnectionCount at h1 h2 hN
      have hiN : now < p.mStates.length := by omega
      have hfi := hno now (le_refl now)
      simp only [hitsAt, List.getElem?_eq_getElem hiN] at hfi
      rw [List.getElem?_eq_getElem hiN]
      simp only [hfi, Bool.false_eq_true, if_false]
      exact ih (now + 1) (by unfold kMaxConnectionCount; omega)
        (by unfold kMaxConnectionCount; omega) (fun j hj => hno j (by omega))

theorem scanLoop_sound (p : PeerConnections) (hit : PeerConnectionState → Bool) :
    ∀ fuel now k, scanLoop hit p.mStates fuel now = FindResult.found k →
      now ≤ k ∧ p.hitsAt hit k = true ∧ ∀ j, now ≤ j → j < k → p.hitsAt hit j = false := by
  intro fuel
  induction fuel with
  | zero => intro now k h; simp [scanLoop] at h
  | succ n ih =>
    intro now k h
    unfold scanLoop at h
    cases hs : p.mStates[now]? with
    | none => rw [hs] at h; simp at h
    | some s =>
      rw [hs] at h
      by_cases hh : hit s = true
      · simp only [hh, if_true, FindResult.found.injEq] at h
        subst h
        refine ⟨le_refl _, ?_, fun j h1 h2 => by omega⟩
        simp [hitsAt, hs, hh]
      · simp only [hh, Bool.false_eq_true, if_false] at h
        obtain ⟨h1, h2, h3⟩ := ih (now + 1) k h
        refine ⟨by omega, h2, ?_⟩
        intro j hj1 hj2
        by_cases hjn : j = now
        · subst hjn
          simp [hitsAt, hs, hh]
        · exact h3 j (by omega) hj2

/-- A lookup returns slot `k` exactly when `k` is the first slot at or after the start
of the scan that the loop body accepts. -/
theorem scanFrom_eq_found_iff (p : PeerConnections) (hit : PeerConnectionState → Bool)
    (begin : Option Nat) (k : Nat) :
    p.scanFrom hit begin = FindResult.found k ↔
      (p.scanStart begin ≤ k ∧ p.hitsAt hit k = true ∧
        ∀ j, p.scanStart begin ≤ j → j < k → p.hitsAt hit j = false) := by
  constructor
  · intro h
    exact scanLoop_sound p hit _ _ k h
  · rintro ⟨h1, h2, h3⟩
    have hk := hitsAt_lt h2
    exact scanLoop_found p hit _ _ k h1 (by omega) h2 h3

/-- A lookup whose scan starts inside the array and meets no accepted slot dereferences
`mStates[kMaxConnectionCount]`. -/
theorem scanFrom_no_hit (p : PeerConnections) (hit : PeerConnectionState → Bool)
    (begin : Option Nat) (hs : p.scanStart begin ≤ p.kMaxConnectionCount)
    (hno : ∀ j, p.scanStart begin ≤ j → p.hitsAt hit j = false) :
    p.scanFrom hit begin = FindResult.outOfRange p.kMaxConnectionCount :=
  scanLoop_past_end p hit _ _ hs (by omega) hno

/-- An accepted slot at or after the start gives a first accepted slot. -/
theorem exists_first_hit {p : PeerConnections} {hit : PeerConnectionState → Bool}
    {start i : Nat} (hi : start ≤ i) (h : p.hitsAt hit i = true) :
    ∃ k, start ≤ k ∧ k ≤ i ∧ p.hitsAt hit k = true ∧
      ∀ j, start ≤ j → j < k → p.hitsAt hit j = false := by
  classical
  have hex : ∃ k, start ≤ k ∧ p.hitsAt hit k = true := ⟨i, hi, h⟩
  refine ⟨Nat.find hex, (Nat.find_spec hex).1, Nat.find_min' hex ⟨hi, h⟩,
    (Nat.find_spec hex).2, ?_⟩
  intro j hj1 hj2
  have := Nat.find_min hex hj2
  simp only [not_and, Bool.not_eq_true] at this
  exact this hj1

/-- A scan from `nullptr` over a pool with an accepted slot `i` returns a slot at or
before `i` that the loop body accepts. -/
theorem scanFrom_null_of_hit {p : PeerConnections} {hit : PeerConnectionState → Bool}
    {i : Nat} (h : p.hitsAt hit i = true) :
    ∃ k, k ≤ i ∧ p.scanFrom hit none = FindResult.found k ∧ p.hitsAt hit k = true ∧
      ∀ j, j < k → p.hitsAt hit j = false := by
  obtain ⟨k, _, h2, h3, h4⟩ := exists_first_hit (Nat.zero_le i) h
  refine ⟨k, h2, ?_, h3, fun j hj => h4 j (Nat.zero_le j) hj⟩
  rw [scanFrom_eq_found_iff]
  exact ⟨Nat.zero_le k, h3, fun j _ hj => h4 j (Nat.zero_le j) hj⟩

/-! ## Creation -/

theorem createLoop_of_all_live (p : PeerConnections) (fresh : PeerConnectionState)
    (h : ∀ j, j < p.kMaxConnectionCount → p.isLive j = true) :
    createLoop p fresh p.kMaxConnectionCount 0 =
      ⟨CHIP_ERROR.CHIP_ERROR_NO_MEMORY, none, p⟩ := by
  apply createLoop_full
  intro j _
  by_cases hj : j < p.kMaxConnectionCount
  · rw [isFree_eq_not_isLive hj, h j hj]; rfl
  · cases hf : p.isFree j with
    | false => rfl
    | true => exact absurd (isFree_lt hf) hj

theorem createLoop_of_lowest_free (p : PeerConnections) (fresh : PeerConnectionState)
    (k : Nat) (hk : p.isFree k = true) (hlow : ∀ j, j < k → p.isFree j = false) :
    createLoop p fresh p.kMaxConnectionCount 0 =
      ⟨CHIP_ERROR.CHIP_NO_ERROR, some k, { p with mStates := p.mStates.set k fresh }⟩ := by
  have hkN := isFree_lt hk
  exact createLoop_first p fresh _ 0 k (Nat.zero_le k) (by omega) hk
    (fun j _ hj => hlow j hj)

theorem CreateCall.run_eq (p : PeerConnections) (c : CreateCall) :
    c.run p = createLoop p (c.fresh p.GetCurrentMonotonicTimeMs) p.kMaxConnectionCount 0 := by
  cases c <;> rfl

theorem CreateCall.fresh_isInitialized (t : Nat) (c : CreateCall)
    (h : c.initializes = true) : (c.fresh t).IsInitialized = true := by
  cases c with
  | byAddress address =>
    simp only [CreateCall.initializes] at h
    simp [CreateCall.fresh, PeerConnectionState.IsInitialized,
      PeerConnectionState.SetLastActivityTimeMs, PeerConnectionState.ofAddress, h]
  | byKeys peerNode peerKeyId localKeyId =>
    cases peerNode with
    | none =>
      simp only [CreateCall.initializes, Option.isSome_none, Bool.false_and, Bool.false_or,
        Bool.or_eq_true] at h
      simp only [CreateCall.fresh, freshByKeys, PeerConnectionState.IsInitialized,
        PeerConnectionState.SetLastActivityTimeMs, PeerConnectionState.SetLocalKeyID,
        PeerConnectionState.SetPeerKeyID, PeerConnectionState.new,
        PeerConnectionState.ofAddress, PeerAddress.IsInitialized, Bool.false_or,
        Bool.or_eq_true]
      rcases h with h | h
      · exact Or.inl (Or.inr h)
      · exact Or.inr h
    | some n =>
      simp only [CreateCall.initializes, Option.isSome_some, Bool.true_and,
        Bool.or_eq_true] at h
      simp only [CreateCall.fresh, freshByKeys, PeerConnectionState.IsInitialized,
        PeerConnectionState.SetLastActivityTimeMs, PeerConnectionState.SetLocalKeyID,
        PeerConnectionState.SetPeerKeyID, PeerConnectionState.SetPeerNodeId,
        PeerConnectionState.new,
        PeerConnectionState.ofAddress, PeerAddress.IsInitialized, Bool.false_or,
        Bool.or_eq_true]
      rcases h with (h | h) | h
      · left; left
        simpa using h
      · exact Or.inl (Or.inr h)
      · exact Or.inr h

theorem isLive_set (p : PeerConnections) (k j : Nat) (x : PeerConnectionState)
    (t : Nat) (hk : k < p.kMaxConnectionCount) :
    isLive { p with mTimeSource := t, mStates := p.mStates.set k x } j =
      if k = j then x.IsInitialized else p.isLive j := by
  unfold kMaxConnectionCount at hk
  simp only [isLive, List.getElem?_set]
  by_cases h : k = j
  · subst h
    simp [hk]
  · simp [h]

theorem isFree_set (p : PeerConnections) (k j : Nat) (x : PeerConnectionState)
    (t : Nat) (hk : k < p.kMaxConnectionCount) :
    isFree { p with mTimeSource := t, mStates := p.mStates.set k x } j =
      if k = j then !x.IsInitialized else p.isFree j := by
  unfold kMaxConnectionCount at hk
  simp only [isFree, List.getElem?_set]
  by_cases h : k = j
  · subst h
    simp [hk]
  · simp [h]

/-- Creation calls whose arguments initialize the slot fill a pool from the lowest free
slot upwards, one slot per call. -/
theorem runCreates_fill : ∀ (calls : List (Nat × CreateCall)) (p : PeerConnections) (k : Nat),
    k + calls.length ≤ p.kMaxConnectionCount →
    (∀ j, j < k → p.isLive j = true) →
    (∀ j, k ≤ j → j < p.kMaxConnectionCount → p.isFree j = true) →
    (∀ tc, tc ∈ calls → tc.2.initializes = true) →
    (∀ e, e ∈ (runCreates p calls).2 → e = CHIP_ERROR.CHIP_NO_ERROR) ∧
      (runCreates p calls).1.kMaxConnectionCount = p.kMaxConnectionCount ∧
      (∀ j, j < k + calls.length → (runCreates p calls).1.isLive j = true) ∧
      (∀ j, k + calls.length ≤ j → j < p.kMaxConnectionCount →
        (runCreates p calls).1.isFree j = true) := by
  intro calls
  induction calls with
  | nil =>
    intro p k _ hl hf _
    refine ⟨?_, rfl, ?_, ?_⟩
    · intro e he; simp [runCreates] at he
    · intro j hj; exact hl j (by simpa using hj)
    · intro j hj1 hj2; exact hf j (by simpa using hj1) hj2
  | cons tc rest ih =>
    intro p k hlen hl hf hinit
    obtain ⟨t, c⟩ := tc
    simp only [List.length_cons] at hlen
    have hkN : k < p.kMaxConnectionCount := by omega
    have hfresh : (c.fresh t).IsInitialized = true :=
      CreateCall.fresh_isInitialized t c (hinit (t, c) (List.mem_cons_self _ _))
    have hrun : c.run { p with mTimeSource := t } =
        ⟨CHIP_ERROR.CHIP_NO_ERROR, some k,
          { p with mTimeSource := t, mStates := p.mStates.set k (c.fresh t) }⟩ := by
      rw [CreateCall.run_eq]
      exact createLoop_of_lowest_free { p with mTimeSource := t } _ k (hf k (le_refl k) hkN)
        (fun j hj => by
          have h1 : isFree { p with mTimeSource := t } j = p.isFree j := rfl
          rw [h1, isFree_eq_not_isLive (by omega), hl j hj]; rfl)
    have hN : kMaxConnectionCount
        { p with mTimeSource := t, mStates := p.mStates.set k (c.fresh t) } =
        p.kMaxConnectionCount := by
      simp [kMaxConnectionCount]
    have hrec := ih { p with mTimeSource := t, mStates := p.mStates.set k (c.fresh t) } (k + 1)
      (by rw [hN]; omega)
      (fun j hj => by
        rw [isLive_set p k j _ t hkN]
        by_cases h : k = j
        · simp [h, hfresh]
        · simp only [h, if_false]; exact hl j (by omega))
      (fun j hj1 hj2 => by
        rw [isFree_set p k j _ t hkN]
        have h : ¬ k = j := by omega
        simp only [h, if_false]
        exact hf j (by omega) (by rw [hN] at hj2; exact hj2))
      (fun tc htc => hinit tc (List.mem_cons_of_mem _ htc))
    simp only [runCreates, hrun, List.length_cons]
    obtain ⟨h1, h2, h3, h4⟩ := hrec
    refine ⟨?_, ?_, ?_, ?_⟩
    · intro e he
      simp only [List.mem_cons] at he
      rcases he with he | he
      · exact he
      · exact h1 e he
    · rw [h2, hN]
    · intro j hj; exact h3 j (by omega)
    · intro j hj1 hj2; exact h4 j (by omega) (by rw [hN]; exact hj2)

theorem empty_isFree (n t j : Nat) (hj : j < n) : (empty n t).isFree j = true := by
  simp [isFree, empty, hj, PeerConnectionState.IsInitialized, PeerConnectionState.new,
    PeerConnectionState.ofAddress, PeerAddress.IsInitialized, kUndefinedNodeId]

theorem empty_kMaxConnectionCount (n t : Nat) : (empty n t).kMaxConnectionCount = n := by
  simp [kMaxConnectionCount, empty]

/-- C1, as stated, fails: in a pool of capacity 1 a creation call with the
uninitialized address returns `CHIP_NO_ERROR` and leaves slot 0 free, so the call after
those `N = 1` successful calls succeeds as well instead of failing with
`CHIP_ERROR_NO_MEMORY`. -/
theorem create_after_capacity_calls_counterexample :
    (runCreates (empty 1 0) [(0, CreateCall.byAddress PeerAddress.Uninitialized)]).2 =
        [CHIP_ERROR.CHIP_NO_ERROR] ∧
      ((CreateCall.byAddress (PeerAddress.known 7)).run
        (runCreates (empty 1 0) [(0, CreateCall.byAddress PeerAddress.Uninitialized)]).1).err =
        CHIP_ERROR.CHIP_NO_ERROR := by
  decide

/-- C1 (amended): for every capacity `n` and every sequence of `n` creation calls (of
either variant, at any readings of the time source) on an empty pool whose arguments are
not all unset (an initialized address; or a peer node id other than the undefined id,
or a key id other than the unset value), all `n` calls return `CHIP_NO_ERROR` and one
further creation call, with any arguments, fails with `CHIP_ERROR_NO_MEMORY`. -/
theorem create_after_capacity_initializing_calls (n t0 : Nat)
    (calls : List (Nat × CreateCall)) (hlen : calls.length = n)
    (hinit : ∀ tc, tc ∈ calls → tc.2.initializes = true) (t : Nat) (c : CreateCall) :
    (∀ e, e ∈ (runCreates (empty n t0) calls).2 → e = CHIP_ERROR.CHIP_NO_ERROR) ∧
      (c.run { (runCreates (empty n t0) calls).1 with mTimeSource := t }).err =
        CHIP_ERROR.CHIP_ERROR_NO_MEMORY := by
  have h := runCreates_fill calls (empty n t0) 0
    (by rw [empty_kMaxConnectionCount]; omega)
    (fun j hj => absurd hj (Nat.not_lt_zero j))
    (fun j _ hj => empty_isFree n t0 j (by rw [empty_kMaxConnectionCount] at hj; exact hj))
    hinit
  obtain ⟨h1, h2, h3, _⟩ := h
  refine ⟨h1, ?_⟩
  rw [CreateCall.run_eq, createLoop_of_all_live]
  intro j hj
  have hj2 : j < (runCreates (empty n t0) calls).1.kMaxConnectionCount := hj
  rw [h2, empty_kMaxConnectionCount] at hj2
  exact h3 j (by omega)

/-- Witness for `create_after_capacity_initializing_calls`: capacity 2, one call of each
variant. -/
theorem create_after_capacity_initializing_calls_witness :
    (∀ e, e ∈ (runCreates (empty 2 0)
        [(1, CreateCall.byAddress (PeerAddress.known 1)),
          (2, CreateCall.byKeys none 3 4)]).2 → e = CHIP_ERROR.CHIP_NO_ERROR) ∧
      ((CreateCall.byAddress (PeerAddress.known 9)).run
        { (runCreates (empty 2 0)
          [(1, CreateCall.byAddress (PeerAddress.known 1)),
            (2, CreateCall.byKeys none 3 4)]).1 with mTimeSource := 5 }).err =
        CHIP_ERROR.CHIP_ERROR_NO_MEMORY :=
  create_after_capacity_initializing_calls 2 0
    [(1, CreateCall.byAddress (PeerAddress.known 1)), (2, CreateCall.byKeys none 3 4)]
    rfl (by decide) 5 (CreateCall.byAddress (PeerAddress.known 9))

/-- C2: `CreateNewPeerConnectionState(address)` returns `CHIP_ERROR_NO_MEMORY` if and
only if every slot is initialized; otherwise it returns `CHIP_NO_ERROR`, the handle is
the lowest-index slot that was uninitialized before the call, and afterwards that slot
holds the given address and the current reading of the time source as its last-activity
time. -/
theorem create_by_address_spec (p : PeerConnections) (address : PeerAddress) :
    ((p.CreateNewPeerConnectionState address).err = CHIP_ERROR.CHIP_ERROR_NO_MEMORY ↔
        ∀ i, i < p.kMaxConnectionCount → p.isLive i = true) ∧
      (¬ (∀ i, i < p.kMaxConnectionCount → p.isLive i = true) →
        (p.CreateNewPeerConnectionState address).err = CHIP_ERROR.CHIP_NO_ERROR ∧
        ∃ k, (p.CreateNewPeerConnectionState address).state = some k ∧
          p.isFree k = true ∧ (∀ j, j < k → p.isFree j = false) ∧
          ∃ s, (p.CreateNewPeerConnectionState address).pool.mStates[k]? = some s ∧
            s.GetPeerAddress = address ∧
            s.GetLastActivityTimeMs = p.GetCurrentMonotonicTimeMs) := by
  have key : ¬ (∀ i, i < p.kMaxConnectionCount → p.isLive i = true) →
      (p.CreateNewPeerConnectionState address).err = CHIP_ERROR.CHIP_NO_ERROR ∧
        ∃ k, (p.CreateNewPeerConnectionState address).state = some k ∧
          p.isFree k = true ∧ (∀ j, j < k → p.isFree j = false) ∧
          ∃ s, (p.CreateNewPeerConnectionState address).pool.mStates[k]? = some s ∧
            s.GetPeerAddress = address ∧
            s.GetLastActivityTimeMs = p.GetCurrentMonotonicTimeMs := by
    intro hnot
    push_neg at hnot
    obtain ⟨i, hi, hli⟩ := hnot
    have hfi : p.isFree i = true := by
      rw [isFree_eq_not_isLive hi]
      simpa using hli
    obtain ⟨k, _, hk, hlow⟩ := exists_lowest_free hfi
    have hkN := isFree_lt hk
    unfold kMaxConnectionCount at hkN
    have hrun := createLoop_of_lowest_free p
      ((PeerConnectionState.ofAddress address).SetLastActivityTimeMs
        p.GetCurrentMonotonicTimeMs) k hk hlow
    unfold CreateNewPeerConnectionState
    rw [hrun]
    refine ⟨rfl, k, rfl, hk, hlow,
      (PeerConnectionState.ofAddress address).SetLastActivityTimeMs
        p.GetCurrentMonotonicTimeMs, ?_, rfl, rfl⟩
    simp [List.getElem?_set, hkN]
  refine ⟨⟨?_, ?_⟩, key⟩
  · intro herr
    by_contra hnot
    rw [(key hnot).1] at herr
    exact absurd herr (by decide)
  · intro hall
    unfold CreateNewPeerConnectionState
    rw [createLoop_of_all_live p _ hall]

/-- Witness for `create_by_address_spec`: capacity 2, slot 0 taken, time source at 5. -/
theorem create_by_address_spec_witness :
    ((CreateNewPeerConnectionState
        ⟨5, [PeerConnectionState.ofAddress (PeerAddress.known 1), PeerConnectionState.new],
          none, 0⟩ (PeerAddress.known 2)).err = CHIP_ERROR.CHIP_NO_ERROR) ∧
      (CreateNewPeerConnectionState
        ⟨5, [PeerConnectionState.ofAddress (PeerAddress.known 1), PeerConnectionState.new],
          none, 0⟩ (PeerAddress.known 2)).state = some 1 :=
  ⟨((create_by_address_spec
      ⟨5, [PeerConnectionState.ofAddress (PeerAddress.known 1), PeerConnectionState.new],
        none, 0⟩ (PeerAddress.known 2)).2 (by decide)).1, by decide⟩

/-! ## Eviction -/

theorem markConnectionExpired_pool (p : PeerConnections) (i : Nat)
    (hi : i < p.kMaxConnectionCount) :
    (p.MarkConnectionExpired i).1 =
      { p with mStates :=
          p.mStates.set i (PeerConnectionState.ofAddress PeerAddress.Uninitialized) } := by
  unfold kMaxConnectionCount at hi
  unfold MarkConnectionExpired
  rw [List.getElem?_eq_getElem hi]

theorem markConnectionExpired_length (p : PeerConnections) (i : Nat) :
    (p.MarkConnectionExpired i).1.mStates.length = p.mStates.length := by
  unfold MarkConnectionExpired
  cases p.mStates[i]? <;> simp

theorem markConnectionExpired_getElem? (p : PeerConnections) (i j : Nat) :
    (p.MarkConnectionExpired i).1.mStates[j]? =
      if i = j ∧ i < p.mStates.length then
        some (PeerConnectionState.ofAddress PeerAddress.Uninitialized)
      else p.mStates[j]? := by
  unfold MarkConnectionExpired
  by_cases hi : i < p.mStates.length
  · rw [List.getElem?_eq_getElem hi]
    simp only [List.getElem?_set, hi, and_true]
    by_cases h : i = j
    · subst h; simp [hi]
    · simp [h]
  · have hn : p.mStates[i]? = none := List.getElem?_eq_none (by omega)
    rw [hn]
    simp [hi]

theorem sweepExpires_eq (p : PeerConnections) (maxIdle i : Nat) (hi : i < p.mStates.length) :
    p.sweepExpires maxIdle i =
      (p.mStates[i].GetPeerAddress.IsInitialized &&
        !decide ((p.mStates[i].GetLastActivityTimeMs + maxIdle) % 2 ^ 64 ≥
          p.GetCurrentMonotonicTimeMs)) := by
  simp only [sweepExpires, List.getElem?_eq_getElem hi]

/-- One iteration of the sweep on a slot that does not pass its test. -/
theorem expireLoop_skip (maxIdle n i : Nat) (p : PeerConnections)
    (hi : i < p.mStates.length) (h : p.sweepExpires maxIdle i = false) :
    expireLoop maxIdle p.GetCurrentMonotonicTimeMs (n + 1) i p =
      expireLoop maxIdle p.GetCurrentMonotonicTimeMs n (i + 1) p := by
  rw [sweepExpires_eq p maxIdle i hi] at h
  rw [expireLoop, List.getElem?_eq_getElem hi]
  simp only []
  split_ifs with a b
  · rfl
  · rfl
  · have hA : p.mStates[i].GetPeerAddress.IsInitialized = true := by simpa using a
    rw [hA, decide_eq_false b] at h
    exact absurd h (by decide)

/-- One iteration of the sweep on a slot that passes its test. -/
theorem expireLoop_hit (maxIdle n i : Nat) (p : PeerConnections)
    (hi : i < p.mStates.length) (h : p.sweepExpires maxIdle i = true) :
    expireLoop maxIdle p.GetCurrentMonotonicTimeMs (n + 1) i p =
      ((expireLoop maxIdle p.GetCurrentMonotonicTimeMs n (i + 1)
          (p.MarkConnectionExpired i).1).1,
        (p.MarkConnectionExpired i).2 ++
          (expireLoop maxIdle p.GetCurrentMonotonicTimeMs n (i + 1)
            (p.MarkConnectionExpired i).1).2) := by
  rw [sweepExpires_eq p maxIdle i hi] at h
  rw [expireLoop, List.getElem?_eq_getElem hi]
  simp only []
  split_ifs with a b
  · have hA : p.mStates[i].GetPeerAddress.IsInitialized = false := by simpa using a
    rw [hA, Bool.false_and] at h
    exact absurd h (by decide)
  · rw [decide_eq_true b, Bool.not_true, Bool.and_false] at h
    exact absurd h (by decide)
  · rfl

/-- The slots after the sweep loop entered at index `i`: a slot at or after `i` that
passes the test of the sweep is reset, every other slot is as before. -/
theorem expireLoop_getElem? (maxIdle : Nat) :
    ∀ fuel i (p : PeerConnections), i + fuel = p.mStates.length → ∀ j,
      (expireLoop maxIdle p.GetCurrentMonotonicTimeMs fuel i p).1.mStates[j]? =
        if i ≤ j ∧ p.sweepExpires maxIdle j = true then
          some (PeerConnectionState.ofAddress PeerAddress.Uninitialized)
        else p.mStates[j]? := by
  intro fuel
  induction fuel with
  | zero =>
    intro i p hlen j
    simp only [expireLoop]
    by_cases hj : i ≤ j
    · have : p.mStates[j]? = none := List.getElem?_eq_none (by omega)
      simp [sweepExpires, this]
    · simp [hj]
  | succ n ih =>
    intro i p hlen j
    have hi : i < p.mStates.length := by omega
    have hself : ¬ (i + 1 ≤ i) := by omega
    cases hsw : p.sweepExpires maxIdle i with
    | false =>
      rw [expireLoop_skip maxIdle n i p hi hsw, ih (i + 1) p (by omega) j]
      by_cases hji : j = i
      · subst hji; simp [hsw, hself]
      · have hstep : (i + 1 ≤ j) ↔ (i ≤ j) := by omega
        simp only [hstep]
    | true =>
      have hlen2 := markConnectionExpired_length p i
      have hc : (p.MarkConnectionExpired i).1.GetCurrentMonotonicTimeMs =
          p.GetCurrentMonotonicTimeMs := by
        rw [markConnectionExpired_pool p i hi]; rfl
      rw [expireLoop_hit maxIdle n i p hi hsw]
      simp only []
      rw [← hc, ih (i + 1) (p.MarkConnectionExpired i).1 (by omega) j]
      by_cases hji : j = i
      · subst hji
        simp [hsw, hself, markConnectionExpired_getElem?, hi]
      · have hne : ¬ i = j := fun h => hji h.symm
        have hg := markConnectionExpired_getElem? p i j
        simp only [hne, false_and, if_false] at hg
        have hsame : (p.MarkConnectionExpired i).1.sweepExpires maxIdle j =
            p.sweepExpires maxIdle j := by
          simp only [sweepExpires, hg, hc]
        have hstep : (i + 1 ≤ j) ↔ (i ≤ j) := by omega
        rw [hsame, hg]
        simp only [hstep]

/-- The slots after `ExpireInactiveConnections`: a slot that passes the test of the
sweep is reset, every other slot is as before. -/
theorem expireInactiveConnections_getElem? (p : PeerConnections) (maxIdle j : Nat) :
    (p.ExpireInactiveConnections maxIdle).1.mStates[j]? =
      if p.sweepExpires maxIdle j = true then
        some (PeerConnectionState.ofAddress PeerAddress.Uninitialized)
      else p.mStates[j]? := by
  unfold ExpireInactiveConnections
  rw [expireLoop_getElem? maxIdle _ 0 p (by simp [kMaxConnectionCount]) j]
  simp

/-- Creation by address in a pool whose lowest free slot is `k`. -/
theorem create_by_address_at_lowest_free (q : PeerConnections) (address : PeerAddress)
    (k : Nat) (hk : q.isFree k = true) (hlow : ∀ j, j < k → q.isFree j = false) :
    (q.CreateNewPeerConnectionState address).err = CHIP_ERROR.CHIP_NO_ERROR ∧
      (q.CreateNewPeerConnectionState address).state = some k ∧
      (q.CreateNewPeerConnectionState address).pool.mStates[k]? =
        some ((PeerConnectionState.ofAddress address).SetLastActivityTimeMs
          q.GetCurrentMonotonicTimeMs) := by
  have hkN := isFree_lt hk
  unfold kMaxConnectionCount at hkN
  unfold CreateNewPeerConnectionState
  rw [createLoop_of_lowest_free q _ k hk hlow]
  refine ⟨rfl, rfl, ?_⟩
  simp [List.getElem?_set, hkN]

theorem ofAddress_isInitialized (address : PeerAddress) (t : Nat) :
    ((PeerConnectionState.ofAddress address).SetLastActivityTimeMs t).IsInitialized =
      address.IsInitialized := by
  simp [PeerConnectionState.IsInitialized, PeerConnectionState.SetLastActivityTimeMs,
    PeerConnectionState.ofAddress]

theorem reset_not_isInitialized :
    (PeerConnectionState.ofAddress PeerAddress.Uninitialized).IsInitialized = false := by
  decide

/-- C3: in a pool whose slots are all initialized creation fails; after
`MarkConnectionExpired` on any slot `k`, or after an `ExpireInactiveConnections` sweep
whose lowest-index expired slot is `k`, the next `CreateNewPeerConnectionState` with an
initialized address returns `CHIP_NO_ERROR`, hands out slot `k`, and slot `k` is then
initialized and holds that address. -/
theorem create_after_eviction (p : PeerConnections) (address : PeerAddress)
    (haddr : address.IsInitialized = true)
    (hfull : ∀ i, i < p.kMaxConnectionCount → p.isLive i = true) :
    (p.CreateNewPeerConnectionState address).err = CHIP_ERROR.CHIP_ERROR_NO_MEMORY ∧
    (∀ k, k < p.kMaxConnectionCount →
      ((p.MarkConnectionExpired k).1.CreateNewPeerConnectionState address).err =
          CHIP_ERROR.CHIP_NO_ERROR ∧
        ((p.MarkConnectionExpired k).1.CreateNewPeerConnectionState address).state = some k ∧
        ((p.MarkConnectionExpired k).1.CreateNewPeerConnectionState address).pool.isLive k =
          true ∧
        ∃ s, ((p.MarkConnectionExpired k).1.CreateNewPeerConnectionState
            address).pool.mStates[k]? = some s ∧ s.GetPeerAddress = address) ∧
    (∀ maxIdle k, p.sweepExpires maxIdle k = true →
      (∀ j, j < k → p.sweepExpires maxIdle j = false) →
      ((p.ExpireInactiveConnections maxIdle).1.CreateNewPeerConnectionState address).err =
          CHIP_ERROR.CHIP_NO_ERROR ∧
        ((p.ExpireInactiveConnections maxIdle).1.CreateNewPeerConnectionState address).state =
          some k ∧
        ((p.ExpireInactiveConnections maxIdle).1.CreateNewPeerConnectionState
          address).pool.isLive k = true ∧
        ∃ s, ((p.ExpireInactiveConnections maxIdle).1.CreateNewPeerConnectionState
            address).pool.mStates[k]? = some s ∧ s.GetPeerAddress = address) := by
  have finish : ∀ (q : PeerConnections) (k : Nat), q.isFree k = true →
      (∀ j, j < k → q.isFree j = false) →
      (q.CreateNewPeerConnectionState address).err = CHIP_ERROR.CHIP_NO_ERROR ∧
        (q.CreateNewPeerConnectionState address).state = some k ∧
        (q.CreateNewPeerConnectionState address).pool.isLive k = true ∧
        ∃ s, (q.CreateNewPeerConnectionState address).pool.mStates[k]? = some s ∧
          s.GetPeerAddress = address := by
    intro q k hk hlow
    obtain ⟨h1, h2, h3⟩ := create_by_address_at_lowest_free q address k hk hlow
    refine ⟨h1, h2, ?_, _, h3, rfl⟩
    simp only [isLive, h3, ofAddress_isInitialized, haddr]
  have hlive : ∀ j, j < p.kMaxConnectionCount →
      ∃ s, p.mStates[j]? = some s ∧ s.IsInitialized = true := by
    intro j hj
    have h := hfull j hj
    unfold kMaxConnectionCount at hj
    simp only [isLive, List.getElem?_eq_getElem hj] at h
    exact ⟨_, List.getElem?_eq_getElem hj, h⟩
  refine ⟨?_, ?_, ?_⟩
  · unfold CreateNewPeerConnectionState
    rw [createLoop_of_all_live p _ hfull]
  · intro k hk
    apply finish
    · simp only [isFree, markConnectionExpired_getElem?]
      unfold kMaxConnectionCount at hk
      simp [hk, reset_not_isInitialized]
    · intro j hj
      obtain ⟨s, hs1, hs2⟩ := hlive j (by omega)
      have hne : ¬ k = j := by omega
      simp [isFree, markConnectionExpired_getElem?, hne, hs1, hs2]
  · intro maxIdle k hk hlow
    have hkN : k < p.kMaxConnectionCount := by
      unfold kMaxConnectionCount
      by_contra hc
      have hn : p.mStates[k]? = none := List.getElem?_eq_none (by omega)
      simp [sweepExpires, hn] at hk
    apply finish
    · simp [isFree, expireInactiveConnections_getElem?, hk, reset_not_isInitialized]
    · intro j hj
      obtain ⟨s, hs1, hs2⟩ := hlive j (by omega)
      simp [isFree, expireInactiveConnections_getElem?, hlow j hj, hs1, hs2]

/-- Witness for `create_after_eviction`: a full pool of capacity 2 at time 100 whose
slots were last active at 10 and 95; a sweep with idle limit 20 expires slot 0. -/
theorem create_after_eviction_witness :
    ((PeerConnections.mk 100
        [(PeerConnectionState.ofAddress (PeerAddress.known 1)).SetLastActivityTimeMs 10,
          (PeerConnectionState.ofAddress (PeerAddress.known 2)).SetLastActivityTimeMs 95]
        none 0).CreateNewPeerConnectionState (PeerAddress.known 3)).err =
      CHIP_ERROR.CHIP_ERROR_NO_MEMORY ∧
    (((PeerConnections.mk 100
        [(PeerConnectionState.ofAddress (PeerAddress.known 1)).SetLastActivityTimeMs 10,
          (PeerConnectionState.ofAddress (PeerAddress.known 2)).SetLastActivityTimeMs 95]
        none 0).ExpireInactiveConnections 20).1.CreateNewPeerConnectionState
          (PeerAddress.known 3)).state = some 0 :=
  ⟨(create_after_eviction
      (PeerConnections.mk 100
        [(PeerConnectionState.ofAddress (PeerAddress.known 1)).SetLastActivityTimeMs 10,
          (PeerConnectionState.ofAddress (PeerAddress.known 2)).SetLastActivityTimeMs 95]
        none 0) (PeerAddress.known 3) rfl (by decide)).1,
    ((create_after_eviction
      (PeerConnections.mk 100
        [(PeerConnectionState.ofAddress (PeerAddress.known 1)).SetLastActivityTimeMs 10,
          (PeerConnectionState.ofAddress (PeerAddress.known 2)).SetLastActivityTimeMs 95]
        none 0) (PeerAddress.known 3) rfl (by decide)).2.2 20 0 (by decide)
        (fun j hj => absurd hj (Nat.not_lt_zero j))).2.1⟩

/-! ## Lookups after creation -/

/-- A successful creation by address stored its slot contents in the lowest free slot. -/
theorem create_by_address_ok (p : PeerConnections) (address : PeerAddress)
    (h : (p.CreateNewPeerConnectionState address).err = CHIP_ERROR.CHIP_NO_ERROR) :
    ∃ k, p.isFree k = true ∧ (∀ j, j < k → p.isFree j = false) ∧
      p.CreateNewPeerConnectionState address =
        ⟨CHIP_ERROR.CHIP_NO_ERROR, some k,
          { p with mStates := (p.mStates.set k
              ((PeerConnectionState.ofAddress address).SetLastActivityTimeMs
                p.GetCurrentMonotonicTimeMs)) }⟩ := by
  by_cases hall : ∀ i, i < p.kMaxConnectionCount → p.isLive i = true
  · unfold CreateNewPeerConnectionState at h
    rw [createLoop_of_all_live p _ hall] at h
    exact CHIP_ERROR.noConfusion h
  · push_neg at hall
    obtain ⟨i, hi, hli⟩ := hall
    have hfi : p.isFree i = true := by
      rw [isFree_eq_not_isLive hi]
      simpa using hli
    obtain ⟨k, _, hk, hlow⟩ := exists_lowest_free hfi
    exact ⟨k, hk, hlow, createLoop_of_lowest_free p _ k hk hlow⟩

theorem hitsAt_iff (p : PeerConnections) (hit : PeerConnectionState → Bool) (i : Nat) :
    p.hitsAt hit i = true ↔ p.slotSatisfies i (fun s => hit s = true) := by
  unfold hitsAt slotSatisfies
  cases p.mStates[i]? with
  | none => simp
  | some s => simp

theorem hitPeerKey_iff (nodeId : Option NodeId) (peerKeyId : Nat) (s : PeerConnectionState) :
    hitPeerKey nodeId peerKeyId s = true ↔ matchesPeerKeyRule nodeId peerKeyId s := by
  unfold hitPeerKey matchesPeerKeyRule
  cases hinit : s.IsInitialized with
  | false => simp
  | true =>
    cases nodeId with
    | none => simp
    | some n =>
      simp only [Bool.not_true, Bool.false_eq_true, if_false, Option.isNone_some,
        Bool.false_or, true_and, false_or]
      by_cases hk : s.GetPeerKeyID = peerKeyId
      · simp [hk]
      · simp [hk]

theorem hitLocalKey_iff (nodeId : Option NodeId) (localKeyId : Nat) (s : PeerConnectionState) :
    hitLocalKey nodeId localKeyId s = true ↔ matchesLocalKeyRule nodeId localKeyId s := by
  unfold hitLocalKey matchesLocalKeyRule
  cases hinit : s.IsInitialized with
  | false => simp
  | true =>
    cases nodeId with
    | none => simp
    | some n =>
      simp only [Bool.not_true, Bool.false_eq_true, if_false, Option.isNone_some,
        Bool.false_or, true_and, false_or]
      by_cases hk : s.GetLocalKeyID = localKeyId
      · simp [hk]
      · simp [hk]

theorem hitNodeId_iff (nodeId : NodeId) (s : PeerConnectionState) :
    hitNodeId nodeId s = true ↔ (s.IsInitialized = true ∧ s.GetPeerNodeId = nodeId) := by
  unfold hitNodeId
  cases hinit : s.IsInitialized with
  | false => simp
  | true => simp

theorem hitAddress_iff (address : PeerAddress) (s : PeerConnectionState) :
    hitAddress address s = true ↔ s.GetPeerAddress = address := by
  unfold hitAddress
  simp

/-- C4: if `CreateNewPeerConnectionState(A)` succeeds, `FindPeerConnectionState(A,
nullptr)` on the resulting pool returns a slot of the pool, and the peer address of
that slot is `A`. -/
theorem find_by_address_after_create (p : PeerConnections) (address : PeerAddress)
    (h : (p.CreateNewPeerConnectionState address).err = CHIP_ERROR.CHIP_NO_ERROR) :
    ∃ k, (p.CreateNewPeerConnectionState address).pool.FindPeerConnectionState address none =
        FindResult.found k ∧
      k < (p.CreateNewPeerConnectionState address).pool.kMaxConnectionCount ∧
      ∃ s, (p.CreateNewPeerConnectionState address).pool.mStates[k]? = some s ∧
        s.GetPeerAddress = address := by
  obtain ⟨i, hi, _, hrun⟩ := create_by_address_ok p address h
  have hiN := isFree_lt hi
  unfold kMaxConnectionCount at hiN
  rw [hrun]
  have hhit : hitsAt
      { p with mStates := (p.mStates.set i
          ((PeerConnectionState.ofAddress address).SetLastActivityTimeMs
            p.GetCurrentMonotonicTimeMs)) } (hitAddress address) i = true := by
    simp [hitsAt, List.getElem?_set, hiN, hitAddress, PeerConnectionState.GetPeerAddress,
      PeerConnectionState.SetLastActivityTimeMs, PeerConnectionState.ofAddress]
  obtain ⟨k, _, hk1, hk2, _⟩ := scanFrom_null_of_hit hhit
  refine ⟨k, hk1, hitsAt_lt hk2, ?_⟩
  obtain ⟨s, hs1, hs2⟩ := (hitsAt_iff _ _ _).1 hk2
  exact ⟨s, hs1, (hitAddress_iff address s).1 hs2⟩

/-- Witness for `find_by_address_after_create`: capacity 2, slot 0 taken. -/
theorem find_by_address_after_create_witness :
    ((PeerConnections.mk 5
        [PeerConnectionState.ofAddress (PeerAddress.known 1), PeerConnectionState.new]
        none 0).CreateNewPeerConnectionState (PeerAddress.known 2)).err =
      CHIP_ERROR.CHIP_NO_ERROR ∧
    ∃ k, ((PeerConnections.mk 5
        [PeerConnectionState.ofAddress (PeerAddress.known 1), PeerConnectionState.new]
        none 0).CreateNewPeerConnectionState (PeerAddress.known 2)).pool.FindPeerConnectionState
          (PeerAddress.known 2) none = FindResult.found k ∧
      k < ((PeerConnections.mk 5
        [PeerConnectionState.ofAddress (PeerAddress.known 1), PeerConnectionState.new]
        none 0).CreateNewPeerConnectionState (PeerAddress.known 2)).pool.kMaxConnectionCount ∧
      ∃ s, ((PeerConnections.mk 5
        [PeerConnectionState.ofAddress (PeerAddress.known 1), PeerConnectionState.new]
        none 0).CreateNewPeerConnectionState (PeerAddress.known 2)).pool.mStates[k]? = some s ∧
        s.GetPeerAddress = PeerAddress.known 2 :=
  ⟨by decide, find_by_address_after_create
    (PeerConnections.mk 5
      [PeerConnectionState.ofAddress (PeerAddress.known 1), PeerConnectionState.new]
      none 0) (PeerAddress.known 2) (by decide)⟩

theorem createLoop_pool_mem (p : PeerConnections) (fresh : PeerConnectionState) :
    ∀ fuel i s, s ∈ (createLoop p fresh fuel i).pool.mStates → s ∈ p.mStates ∨ s = fresh := by
  intro fuel
  induction fuel with
  | zero => intro i s hs; exact Or.inl hs
  | succ n ih =>
    intro i s hs
    unfold createLoop at hs
    cases hx : p.mStates[i]? with
    | none => rw [hx] at hs; exact Or.inl hs
    | some x =>
      rw [hx] at hs
      by_cases hfree : (!x.IsInitialized) = true
      · simp only [hfree, if_true] at hs
        exact List.mem_or_eq_of_mem_set hs
      · simp only [hfree, if_false] at hs
        exact ih (i + 1) s hs

theorem CreateCall.fresh_address_ne (t : Nat) (c : CreateCall) (B : PeerAddress)
    (hB : B ≠ PeerAddress.Uninitialized) (hc : c ≠ CreateCall.byAddress B) :
    (c.fresh t).GetPeerAddress ≠ B := by
  cases c with
  | byAddress a =>
    intro h
    apply hc
    have : a = B := h
    rw [this]
  | byKeys peerNode peerKeyId localKeyId =>
    intro h
    apply hB
    cases peerNode <;> exact h.symm

/-- Creation calls never store an address that was not passed to one of them. -/
theorem runCreates_address_ne (B : PeerAddress) (hB : B ≠ PeerAddress.Uninitialized) :
    ∀ (calls : List (Nat × CreateCall)) (p : PeerConnections),
      (∀ tc, tc ∈ calls → tc.2 ≠ CreateCall.byAddress B) →
      (∀ s, s ∈ p.mStates → s.GetPeerAddress ≠ B) →
      ∀ s, s ∈ (runCreates p calls).1.mStates → s.GetPeerAddress ≠ B := by
  intro calls
  induction calls with
  | nil => intro p _ hp s hs; exact hp s hs
  | cons tc rest ih =>
    intro p hnever hp s hs
    obtain ⟨t, c⟩ := tc
    simp only [runCreates] at hs
    refine ih _ (fun tc htc => hnever tc (List.mem_cons_of_mem _ htc)) ?_ s hs
    intro x hx
    rw [CreateCall.run_eq] at hx
    rcases createLoop_pool_mem _ _ _ _ x hx with h | h
    · exact hp x h
    · rw [h]
      exact CreateCall.fresh_address_ne _ c B hB (hnever (t, c) (List.mem_cons_self _ _))

/-- C5 (failing input): on the empty pool of capacity 1 (no creation call was made, so
the uninitialized address was never passed to one) `FindPeerConnectionState` with the
uninitialized address and `nullptr` returns slot 0, which is an uninitialized slot: the
by-address loop body compares addresses without the `IsInitialized()` test of the other
three lookups. -/
theorem find_uninitialized_address_returns_free_slot :
    (runCreates (empty 1 0) []).1.FindPeerConnectionState PeerAddress.Uninitialized none =
        FindResult.found 0 ∧
      (runCreates (empty 1 0) []).1.isFree 0 = true := by
  decide

/-- For every pool reached from the empty pool by creation calls and every address `B`
other than the uninitialized address that was never passed to
`CreateNewPeerConnectionState`, `FindPeerConnectionState(B, nullptr)` returns no slot
of the pool. -/
theorem find_never_created_address (n t0 : Nat) (calls : List (Nat × CreateCall))
    (B : PeerAddress) (hB : B ≠ PeerAddress.Uninitialized)
    (hnever : ∀ tc, tc ∈ calls → tc.2 ≠ CreateCall.byAddress B) (k : Nat) :
    (runCreates (empty n t0) calls).1.FindPeerConnectionState B none ≠ FindResult.found k := by
  intro h
  unfold FindPeerConnectionState at h
  obtain ⟨_, hk, _⟩ := (scanFrom_eq_found_iff _ _ _ _).1 h
  obtain ⟨s, hs1, hs2⟩ := (hitsAt_iff _ _ _).1 hk
  have hmem : s ∈ (runCreates (empty n t0) calls).1.mStates := List.getElem?_mem hs1
  refine runCreates_address_ne B hB calls (empty n t0) hnever ?_ s hmem
    ((hitAddress_iff B s).1 hs2)
  intro x hx
  simp only [empty, List.mem_replicate] at hx
  rw [hx.2]
  exact fun h => hB h.symm

/-- An instance of `find_never_created_address`: capacity 3, one creation of each
variant, lookup of an address that was not created. -/
theorem find_never_created_address_example :
    (runCreates (empty 3 0)
        [(1, CreateCall.byAddress (PeerAddress.known 1)),
          (2, CreateCall.byKeys (some 8) 3 4)]).1.FindPeerConnectionState
        (PeerAddress.known 2) none ≠ FindResult.found 1 :=
  find_never_created_address 3 0
    [(1, CreateCall.byAddress (PeerAddress.known 1)), (2, CreateCall.byKeys (some 8) 3 4)]
    (PeerAddress.known 2) (by decide) (by decide) 1

/-- A live slot whose peer node id is undefined is found by the peer-key lookup for any
requested node id: the lookup from `nullptr` with the slot's peer key id returns the
first slot that satisfies the matching rule, which lies at or before it. -/
theorem find_by_peer_key_of_undefined_node (q : PeerConnections) (i n : Nat)
    (s : PeerConnectionState) (hs : q.mStates[i]? = some s) (hinit : s.IsInitialized = true)
    (hnode : s.GetPeerNodeId = kUndefinedNodeId) :
    ∃ k, k ≤ i ∧
      q.FindPeerConnectionStateByPeerKey (some n) s.GetPeerKeyID none = FindResult.found k ∧
      q.slotSatisfies k (matchesPeerKeyRule (some n) s.GetPeerKeyID) ∧
      ((∀ j, j < i → ¬ q.slotSatisfies j (matchesPeerKeyRule (some n) s.GetPeerKeyID)) →
        k = i) := by
  have hhit : q.hitsAt (hitPeerKey (some n) s.GetPeerKeyID) i = true := by
    rw [hitsAt_iff]
    exact ⟨s, hs, (hitPeerKey_iff _ _ _).2 ⟨hinit, rfl, Or.inr (Or.inl hnode)⟩⟩
  obtain ⟨k, hk1, hk2, hk3, _⟩ := scanFrom_null_of_hit hhit
  have hsat : q.slotSatisfies k (matchesPeerKeyRule (some n) s.GetPeerKeyID) := by
    obtain ⟨x, hx1, hx2⟩ := (hitsAt_iff _ _ _).1 hk3
    exact ⟨x, hx1, (hitPeerKey_iff _ _ _).1 hx2⟩
  refine ⟨k, hk1, hk2, hsat, ?_⟩
  intro hno
  by_contra hne
  exact hno k (by omega) hsat

/-- The handle a creation by address returns is the lowest free slot, and the slot
contents are stored there. -/
theorem create_by_address_state (p : PeerConnections) (address : PeerAddress) (i : Nat)
    (h : (p.CreateNewPeerConnectionState address).state = some i) :
    p.isFree i = true ∧
      (p.CreateNewPeerConnectionState address).pool.mStates[i]? =
        some ((PeerConnectionState.ofAddress address).SetLastActivityTimeMs
          p.GetCurrentMonotonicTimeMs) := by
  by_cases hall : ∀ j, j < p.kMaxConnectionCount → p.isLive j = true
  · unfold CreateNewPeerConnectionState at h
    rw [createLoop_of_all_live p _ hall] at h
    exact Option.noConfusion h
  · push_neg at hall
    obtain ⟨j, hj, hlj⟩ := hall
    have hfj : p.isFree j = true := by
      rw [isFree_eq_not_isLive hj]
      simpa using hlj
    obtain ⟨k, _, hk, hlow⟩ := exists_lowest_free hfj
    obtain ⟨_, h2, h3⟩ := create_by_address_at_lowest_free p address k hk hlow
    rw [h2] at h
    have hki : k = i := Option.some.inj h
    subst hki
    exact ⟨hk, h3⟩

/-- C6: for a connection created by address only (an initialized slot `i` handed out by
`CreateNewPeerConnectionState(address)`; its peer node id is undefined), every requested
node id `n` and `k` the connection's peer key id, `FindPeerConnectionState(Optional(n),
k, nullptr)` returns a slot, at or before `i`, that satisfies the matching rule; and if
no lower-index slot is initialized with peer key id `k` and a compatible node id, it
returns slot `i` itself. -/
theorem find_by_peer_key_after_create_by_address (p : PeerConnections)
    (address : PeerAddress) (n i : Nat)
    (hcreate : (p.CreateNewPeerConnectionState address).state = some i)
    (hlive : (p.CreateNewPeerConnectionState address).pool.isLive i = true) :
    ∃ s, (p.CreateNewPeerConnectionState address).pool.mStates[i]? = some s ∧
      s.GetPeerNodeId = kUndefinedNodeId ∧
      ∃ k, k ≤ i ∧
        (p.CreateNewPeerConnectionState address).pool.FindPeerConnectionStateByPeerKey
          (some n) s.GetPeerKeyID none = FindResult.found k ∧
        (p.CreateNewPeerConnectionState address).pool.slotSatisfies k
          (matchesPeerKeyRule (some n) s.GetPeerKeyID) ∧
        ((∀ j, j < i → ¬ (p.CreateNewPeerConnectionState address).pool.slotSatisfies j
            (matchesPeerKeyRule (some n) s.GetPeerKeyID)) → k = i) := by
  obtain ⟨_, hslot⟩ := create_by_address_state p address i hcreate
  have hinit : ((PeerConnectionState.ofAddress address).SetLastActivityTimeMs
      p.GetCurrentMonotonicTimeMs).IsInitialized = true := by
    simp only [isLive, hslot] at hlive
    exact hlive
  exact ⟨_, hslot, rfl,
    find_by_peer_key_of_undefined_node _ i n _ hslot hinit rfl⟩

/-- Witness for `find_by_peer_key_after_create_by_address`: capacity 2, slot 0 holds a
connection with another peer key id. -/
theorem find_by_peer_key_after_create_by_address_witness :
    ∃ s, ((PeerConnections.mk 5 [freshByKeys 1 (some 9) 3 4, PeerConnectionState.new]
        none 0).CreateNewPeerConnectionState (PeerAddress.known 2)).pool.mStates[1]? = some s ∧
      s.GetPeerNodeId = kUndefinedNodeId ∧
      ∃ k, k ≤ 1 ∧
        ((PeerConnections.mk 5 [freshByKeys 1 (some 9) 3 4, PeerConnectionState.new]
          none 0).CreateNewPeerConnectionState
            (PeerAddress.known 2)).pool.FindPeerConnectionStateByPeerKey
          (some 7) s.GetPeerKeyID none = FindResult.found k ∧
        ((PeerConnections.mk 5 [freshByKeys 1 (some 9) 3 4, PeerConnectionState.new]
          none 0).CreateNewPeerConnectionState (PeerAddress.known 2)).pool.slotSatisfies k
          (matchesPeerKeyRule (some 7) s.GetPeerKeyID) ∧
        ((∀ j, j < 1 → ¬ ((PeerConnections.mk 5
            [freshByKeys 1 (some 9) 3 4, PeerConnectionState.new]
            none 0).CreateNewPeerConnectionState (PeerAddress.known 2)).pool.slotSatisfies j
            (matchesPeerKeyRule (some 7) s.GetPeerKeyID)) → k = 1) :=
  find_by_peer_key_after_create_by_address
    (PeerConnections.mk 5 [freshByKeys 1 (some 9) 3 4, PeerConnectionState.new] none 0)
    (PeerAddress.known 2) 7 1 (by decide) (by decide)

/-! ## Matching rules of the lookups -/

/-- A lookup whose loop body decides `P` returns slot `i` exactly when `i` is the first
slot at or after the start of the scan whose contents satisfy `P`. -/
theorem scanFrom_eq_found_iff_rule (p : PeerConnections) (hit : PeerConnectionState → Bool)
    (P : PeerConnectionState → Prop) (hP : ∀ s, hit s = true ↔ P s)
    (begin : Option Nat) (i : Nat) :
    p.scanFrom hit begin = FindResult.found i ↔
      (p.scanStart begin ≤ i ∧ p.slotSatisfies i P ∧
        ∀ j, p.scanStart begin ≤ j → j < i → ¬ p.slotSatisfies j P) := by
  have hsat : ∀ j, p.hitsAt hit j = true ↔ p.slotSatisfies j P := by
    intro j
    rw [hitsAt_iff]
    unfold slotSatisfies
    constructor
    · rintro ⟨s, h1, h2⟩; exact ⟨s, h1, (hP s).1 h2⟩
    · rintro ⟨s, h1, h2⟩; exact ⟨s, h1, (hP s).2 h2⟩
  rw [scanFrom_eq_found_iff]
  constructor
  · rintro ⟨h1, h2, h3⟩
    refine ⟨h1, (hsat i).1 h2, ?_⟩
    intro j hj1 hj2 hj3
    have := h3 j hj1 hj2
    rw [(hsat j).2 hj3] at this
    exact absurd this (by decide)
  · rintro ⟨h1, h2, h3⟩
    refine ⟨h1, (hsat i).2 h2, ?_⟩
    intro j hj1 hj2
    cases hh : p.hitsAt hit j with
    | false => rfl
    | true => exact absurd ((hsat j).1 hh) (h3 j hj1 hj2)

/-- C7: each of the two key-qualified lookups returns slot `i` exactly when `i` is the
first slot of the scanned range that is initialized, has the requested peer (respectively
local) key id, and for which no node id was requested, or the slot's peer node id is
undefined, or it equals the requested node id. -/
theorem key_lookups_match_rule (p : PeerConnections) (nodeId : Option NodeId) (keyId : Nat)
    (begin : Option Nat) (i : Nat) :
    (p.FindPeerConnectionStateByPeerKey nodeId keyId begin = FindResult.found i ↔
      (p.scanStart begin ≤ i ∧ p.slotSatisfies i (matchesPeerKeyRule nodeId keyId) ∧
        ∀ j, p.scanStart begin ≤ j → j < i →
          ¬ p.slotSatisfies j (matchesPeerKeyRule nodeId keyId))) ∧
    (p.FindPeerConnectionStateByLocalKey nodeId keyId begin = FindResult.found i ↔
      (p.scanStart begin ≤ i ∧ p.slotSatisfies i (matchesLocalKeyRule nodeId keyId) ∧
        ∀ j, p.scanStart begin ≤ j → j < i →
          ¬ p.slotSatisfies j (matchesLocalKeyRule nodeId keyId))) :=
  ⟨scanFrom_eq_found_iff_rule p _ _ (hitPeerKey_iff nodeId keyId) begin i,
    scanFrom_eq_found_iff_rule p _ _ (hitLocalKey_iff nodeId keyId) begin i⟩

/-- C8, as stated, fails: in a pool of capacity 1 whose slot 0 was just created by
address only (initialized, peer node id undefined), the node-id-only lookup for node id
5 from `nullptr` does not return a slot; slot 0 is passed over and the scan runs on to
`mStates[1]`. -/
theorem find_by_node_id_no_wildcard_counterexample :
    ((empty 1 0).CreateNewPeerConnectionState (PeerAddress.known 1)).pool.isLive 0 = true ∧
      ((empty 1 0).CreateNewPeerConnectionState (PeerAddress.known 1)).pool.slotSatisfies 0
        (fun s => s.GetPeerNodeId = kUndefinedNodeId) ∧
      ((empty 1 0).CreateNewPeerConnectionState
        (PeerAddress.known 1)).pool.FindPeerConnectionStateByNodeId 5 none =
          FindResult.outOfRange 1 ∧
      ¬ ∃ k, ((empty 1 0).CreateNewPeerConnectionState
        (PeerAddress.known 1)).pool.FindPeerConnectionStateByNodeId 5 none =
          FindResult.found k := by
  refine ⟨by decide, ⟨_, rfl, rfl⟩, by decide, ?_⟩
  rintro ⟨k, hk⟩
  have h : ((empty 1 0).CreateNewPeerConnectionState
      (PeerAddress.known 1)).pool.FindPeerConnectionStateByNodeId 5 none =
        FindResult.outOfRange 1 := by decide
  rw [h] at hk
  exact FindResult.noConfusion hk

/-- C8 (amended): the node-id-only lookup matches on equality only: it returns slot `i`
exactly when `i` is the first slot at or after the start of the scan that is initialized
and whose peer node id equals the requested node id.  An initialized slot whose peer
node id is undefined is matched only by a request for the undefined node id. -/
theorem find_by_node_id_exact (p : PeerConnections) (nodeId : NodeId)
    (begin : Option Nat) (i : Nat) :
    p.FindPeerConnectionStateByNodeId nodeId begin = FindResult.found i ↔
      (p.scanStart begin ≤ i ∧
        p.slotSatisfies i (fun s => s.IsInitialized = true ∧ s.GetPeerNodeId = nodeId) ∧
        ∀ j, p.scanStart begin ≤ j → j < i →
          ¬ p.slotSatisfies j (fun s => s.IsInitialized = true ∧ s.GetPeerNodeId = nodeId)) :=
  scanFrom_eq_found_iff_rule p _ _ (hitNodeId_iff nodeId) begin i

/-! ## The end of the scan -/

/-- A lookup whose scan starts at a slot of the array, or right after the last one,
never returns `nullptr`: it returns a slot or dereferences `mStates[kMaxConnectionCount]`. -/
theorem scanFrom_ne_notFound (p : PeerConnections) (hit : PeerConnectionState → Bool)
    (begin : Option Nat) (hs : p.scanStart begin ≤ p.kMaxConnectionCount) :
    p.scanFrom hit begin ≠ FindResult.notFound := by
  by_cases hex : ∃ j, p.scanStart begin ≤ j ∧ p.hitsAt hit j = true
  · obtain ⟨j, hj1, hj2⟩ := hex
    obtain ⟨k, hk1, _, hk3, hk4⟩ := exists_first_hit hj1 hj2
    rw [(scanFrom_eq_found_iff p hit begin k).2 ⟨hk1, hk3, hk4⟩]
    exact fun h => FindResult.noConfusion h
  · push_neg at hex
    rw [scanFrom_no_hit p hit begin hs
      (fun j hj => by simpa using hex j hj)]
    exact fun h => FindResult.noConfusion h

/-- C9 (failing input): a pool of capacity 1 whose slot 0 holds a connection with
address 1, node id 9, peer key id 3, local key id 4.  No slot matches address 2, node
id 5, peer key id 6 or local key id 7, and each of the four lookups from `nullptr`
dereferences `mStates[1]` instead of returning `nullptr`. -/
theorem lookups_read_past_last_slot :
    (PeerConnections.mk 0 [⟨PeerAddress.known 1, 9, 3, 4, 0⟩] none
        0).FindPeerConnectionState (PeerAddress.known 2) none = FindResult.outOfRange 1 ∧
      (PeerConnections.mk 0 [⟨PeerAddress.known 1, 9, 3, 4, 0⟩] none
        0).FindPeerConnectionStateByNodeId 5 none = FindResult.outOfRange 1 ∧
      (PeerConnections.mk 0 [⟨PeerAddress.known 1, 9, 3, 4, 0⟩] none
        0).FindPeerConnectionStateByPeerKey (some 9) 6 none = FindResult.outOfRange 1 ∧
      (PeerConnections.mk 0 [⟨PeerAddress.known 1, 9, 3, 4, 0⟩] none
        0).FindPeerConnectionStateByLocalKey (some 9) 7 none = FindResult.outOfRange 1 := by
  decide

/-- C10 (failing input): a pool of capacity 2 whose two slots hold connections of node 9
with peer key id 3.  The enumeration by `FindPeerConnectionState(Optional(9), 3, _)`
returns slot 0, then slot 1, and its third call dereferences `mStates[2]` instead of
returning `nullptr`. -/
theorem enumeration_reads_past_last_slot :
    enumerate
      ((PeerConnections.mk 0 [freshByKeys 1 (some 9) 3 4, freshByKeys 2 (some 9) 3 5]
        none 0).FindPeerConnectionStateByPeerKey (some 9) 3) 3 none =
      ([0, 1], some (FindResult.outOfRange 2)) := by
  decide

/-- A lookup resumed from the last slot of the pool dereferences
`mStates[kMaxConnectionCount]`, whatever the pool holds and whatever is looked up. -/
theorem scanFrom_after_last_slot (p : PeerConnections) (hit : PeerConnectionState → Bool)
    (hN : 0 < p.kMaxConnectionCount) :
    p.scanFrom hit (some (p.kMaxConnectionCount - 1)) =
      FindResult.outOfRange p.kMaxConnectionCount := by
  have hstart : p.scanStart (some (p.kMaxConnectionCount - 1)) = p.kMaxConnectionCount := by
    have hle : p.kMaxConnectionCount - 1 ≤ p.kMaxConnectionCount := by omega
    simp only [scanStart, hle, if_true]
    omega
  apply scanFrom_no_hit p hit _ (by rw [hstart])
  intro j hj
  rw [hstart] at hj
  cases hh : p.hitsAt hit j with
  | false => rfl
  | true => exact absurd (hitsAt_lt hh) (by omega)

/-- C11 (failing input): a pool of capacity 2 whose slots hold two connections.  Each of
the four lookups, resumed from the handle of slot 1 (the last slot), reads slot index 2,
which is outside `0..1`; so does the by-address lookup from `nullptr` for an address
that no slot holds. -/
theorem lookups_read_index_out_of_range :
    (PeerConnections.mk 0 [⟨PeerAddress.known 1, 9, 3, 4, 0⟩, ⟨PeerAddress.known 2, 9, 3, 4, 0⟩]
        none 0).FindPeerConnectionState (PeerAddress.known 1) (some 1) =
        FindResult.outOfRange 2 ∧
      (PeerConnections.mk 0 [⟨PeerAddress.known 1, 9, 3, 4, 0⟩, ⟨PeerAddress.known 2, 9, 3, 4, 0⟩]
        none 0).FindPeerConnectionStateByNodeId 9 (some 1) = FindResult.outOfRange 2 ∧
      (PeerConnections.mk 0 [⟨PeerAddress.known 1, 9, 3, 4, 0⟩, ⟨PeerAddress.known 2, 9, 3, 4, 0⟩]
        none 0).FindPeerConnectionStateByPeerKey (some 9) 3 (some 1) =
        FindResult.outOfRange 2 ∧
      (PeerConnections.mk 0 [⟨PeerAddress.known 1, 9, 3, 4, 0⟩, ⟨PeerAddress.known 2, 9, 3, 4, 0⟩]
        none 0).FindPeerConnectionStateByLocalKey (some 9) 4 (some 1) =
        FindResult.outOfRange 2 ∧
      (PeerConnections.mk 0 [⟨PeerAddress.known 1, 9, 3, 4, 0⟩, ⟨PeerAddress.known 2, 9, 3, 4, 0⟩]
        none 0).FindPeerConnectionState (PeerAddress.known 3) none =
        FindResult.outOfRange 2 := by
  decide

/-! ## Activity marking and explicit expiry -/

/-- C12: `MarkConnectionExpired` on slot `i` invokes the registered callback exactly once,
with the contents the slot had before the call and the registered context (also when
handler and context were just registered with `SetConnectionExpiredHandler`); with no
callback registered it invokes nothing; in both cases the slot is uninitialized
afterwards: address uninitialized, peer node id undefined, both key ids unset. -/
theorem markConnectionExpired_spec (p : PeerConnections) (i : Nat) (s : PeerConnectionState)
    (hs : p.mStates[i]? = some s) :
    (∀ h, p.OnConnectionExpired = some h →
      (p.MarkConnectionExpired i).2 = [⟨h, s, p.mConnectionExpiredArgument⟩]) ∧
    (p.OnConnectionExpired = none → (p.MarkConnectionExpired i).2 = []) ∧
    (∀ h c, ((p.SetConnectionExpiredHandler (some h) c).MarkConnectionExpired i).2 =
      [⟨h, s, c⟩]) ∧
    (∀ c, ((p.SetConnectionExpiredHandler none c).MarkConnectionExpired i).2 = []) ∧
    (p.MarkConnectionExpired i).1.isFree i = true ∧
    ∃ r, (p.MarkConnectionExpired i).1.mStates[i]? = some r ∧
      r.IsInitialized = false ∧
      r.GetPeerAddress = PeerAddress.Uninitialized ∧
      r.GetPeerNodeId = kUndefinedNodeId ∧
      r.GetPeerKeyID = kUnsetKeyId ∧ r.GetLocalKeyID = kUnsetKeyId := by
  have hi : i < p.mStates.length := by
    by_contra hc
    have hn : p.mStates[i]? = none := List.getElem?_eq_none (by omega)
    rw [hn] at hs
    exact Option.noConfusion hs
  have hslot : (p.MarkConnectionExpired i).1.mStates[i]? =
      some (PeerConnectionState.ofAddress PeerAddress.Uninitialized) := by
    rw [markConnectionExpired_getElem?]
    simp [hi]
  refine ⟨?_, ?_, ?_, ?_, ?_, _, hslot, reset_not_isInitialized, rfl, rfl, rfl, rfl⟩
  · intro h hh
    simp only [MarkConnectionExpired, hs, hh]
  · intro hh
    simp only [MarkConnectionExpired, hs, hh]
  · intro h c
    simp only [MarkConnectionExpired, SetConnectionExpiredHandler, hs]
  · intro c
    simp only [MarkConnectionExpired, SetConnectionExpiredHandler, hs]
  · simp only [isFree, hslot, reset_not_isInitialized, Bool.not_false]

/-- Witness for `markConnectionExpired_spec`: capacity 2, handler 7 with context 8,
slot 1 holds a connection. -/
theorem markConnectionExpired_spec_witness :
    ((PeerConnections.mk 5
        [PeerConnectionState.new, freshByKeys 1 (some 9) 3 4] (some 7) 8).MarkConnectionExpired
        1).2 = [⟨7, freshByKeys 1 (some 9) 3 4, 8⟩] ∧
      ((PeerConnections.mk 5
        [PeerConnectionState.new, freshByKeys 1 (some 9) 3 4] (some 7) 8).MarkConnectionExpired
        1).1.isFree 1 = true :=
  ⟨(markConnectionExpired_spec
      (PeerConnections.mk 5 [PeerConnectionState.new, freshByKeys 1 (some 9) 3 4] (some 7) 8)
      1 (freshByKeys 1 (some 9) 3 4) rfl).1 7 rfl,
    (markConnectionExpired_spec
      (PeerConnections.mk 5 [PeerConnectionState.new, freshByKeys 1 (some 9) 3 4] (some 7) 8)
      1 (freshByKeys 1 (some 9) 3 4) rfl).2.2.2.2.1⟩

/-- C16: `MarkConnectionActive` on slot `i` sets the slot's last-activity time to the
current reading of the time source and changes nothing else: the slot keeps its address,
peer node id and key ids, every other slot is unchanged, and so are the registered
callback, its context, the time source and the capacity. -/
theorem markConnectionActive_spec (p : PeerConnections) (i : Nat) (s : PeerConnectionState)
    (hs : p.mStates[i]? = some s) :
    (∃ r, (p.MarkConnectionActive i).mStates[i]? = some r ∧
      r.GetLastActivityTimeMs = p.GetCurrentMonotonicTimeMs ∧
      r.GetPeerAddress = s.GetPeerAddress ∧ r.GetPeerNodeId = s.GetPeerNodeId ∧
      r.GetPeerKeyID = s.GetPeerKeyID ∧ r.GetLocalKeyID = s.GetLocalKeyID) ∧
    (∀ j, j ≠ i → (p.MarkConnectionActive i).mStates[j]? = p.mStates[j]?) ∧
    (p.MarkConnectionActive i).OnConnectionExpired = p.OnConnectionExpired ∧
    (p.MarkConnectionActive i).mConnectionExpiredArgument = p.mConnectionExpiredArgument ∧
    (p.MarkConnectionActive i).GetCurrentMonotonicTimeMs = p.GetCurrentMonotonicTimeMs ∧
    (p.MarkConnectionActive i).kMaxConnectionCount = p.kMaxConnectionCount := by
  have hi : i < p.mStates.length := by
    by_contra hc
    have hn : p.mStates[i]? = none := List.getElem?_eq_none (by omega)
    rw [hn] at hs
    exact Option.noConfusion hs
  have hrun : p.MarkConnectionActive i =
      { p with mStates :=
          (p.mStates.set i (s.SetLastActivityTimeMs p.GetCurrentMonotonicTimeMs)) } := by
    simp only [MarkConnectionActive, hs]
  rw [hrun]
  refine ⟨⟨s.SetLastActivityTimeMs p.GetCurrentMonotonicTimeMs, ?_, rfl, rfl, rfl, rfl, rfl⟩,
    ?_, rfl, rfl, rfl, ?_⟩
  · simp [List.getElem?_set, hi]
  · intro j hj
    have hne : ¬ i = j := fun h => hj h.symm
    simp [List.getElem?_set, hne]
  · simp [kMaxConnectionCount]

/-- Witness for `markConnectionActive_spec`: capacity 2, time source at 50. -/
theorem markConnectionActive_spec_witness :
    ∃ r, ((PeerConnections.mk 50
        [PeerConnectionState.new, freshByKeys 1 (some 9) 3 4] (some 7) 8).MarkConnectionActive
        1).mStates[1]? = some r ∧
      r.GetLastActivityTimeMs = 50 ∧
      r.GetPeerAddress = (freshByKeys 1 (some 9) 3 4).GetPeerAddress ∧
      r.GetPeerNodeId = (freshByKeys 1 (some 9) 3 4).GetPeerNodeId ∧
      r.GetPeerKeyID = (freshByKeys 1 (some 9) 3 4).GetPeerKeyID ∧
      r.GetLocalKeyID = (freshByKeys 1 (some 9) 3 4).GetLocalKeyID :=
  (markConnectionActive_spec
    (PeerConnections.mk 50 [PeerConnectionState.new, freshByKeys 1 (some 9) 3 4] (some 7) 8)
    1 (freshByKeys 1 (some 9) 3 4) rfl).1

/-! ## The sweep -/

theorem sweepExpires_lt {p : PeerConnections} {maxIdle i : Nat}
    (h : p.sweepExpires maxIdle i = true) : i < p.mStates.length := by
  by_contra hc
  have hn : p.mStates[i]? = none := List.getElem?_eq_none (by omega)
  simp [sweepExpires, hn] at h

theorem markConnectionExpired_fields (p : PeerConnections) (i : Nat) :
    (p.MarkConnectionExpired i).1.OnConnectionExpired = p.OnConnectionExpired ∧
      (p.MarkConnectionExpired i).1.mConnectionExpiredArgument =
        p.mConnectionExpiredArgument ∧
      (p.MarkConnectionExpired i).1.mTimeSource = p.mTimeSource := by
  unfold MarkConnectionExpired
  cases p.mStates[i]? <;> exact ⟨rfl, rfl, rfl⟩

theorem sweepExpires_markConnectionExpired_ne (p : PeerConnections) (maxIdle i j : Nat)
    (hne : i ≠ j) :
    (p.MarkConnectionExpired i).1.sweepExpires maxIdle j = p.sweepExpires maxIdle j := by
  have hg := markConnectionExpired_getElem? p i j
  simp only [hne, false_and, if_false] at hg
  have hc : (p.MarkConnectionExpired i).1.GetCurrentMonotonicTimeMs =
      p.GetCurrentMonotonicTimeMs := (markConnectionExpired_fields p i).2.2
  simp only [sweepExpires, hg, hc]

theorem callFor_markConnectionExpired_ne (p : PeerConnections) (h i j : Nat) (hne : i ≠ j) :
    (p.MarkConnectionExpired i).1.callFor h j = p.callFor h j := by
  have hg := markConnectionExpired_getElem? p i j
  simp only [hne, false_and, if_false] at hg
  simp only [callFor, hg, (markConnectionExpired_fields p i).2.1]

/-- The sweep loop leaves the registered callback, its context and the time source as
they are. -/
theorem expireLoop_fields (maxIdle cur : Nat) :
    ∀ fuel i (p : PeerConnections),
      (expireLoop maxIdle cur fuel i p).1.OnConnectionExpired = p.OnConnectionExpired ∧
        (expireLoop maxIdle cur fuel i p).1.mConnectionExpiredArgument =
          p.mConnectionExpiredArgument ∧
        (expireLoop maxIdle cur fuel i p).1.mTimeSource = p.mTimeSource := by
  intro fuel
  induction fuel with
  | zero => intro i p; exact ⟨rfl, rfl, rfl⟩
  | succ n ih =>
    intro i p
    rw [expireLoop]
    cases p.mStates[i]? with
    | none => exact ⟨rfl, rfl, rfl⟩
    | some x =>
      simp only []
      split_ifs
      · exact ih (i + 1) p
      · exact ih (i + 1) p
      · obtain ⟨h1, h2, h3⟩ := ih (i + 1) (p.MarkConnectionExpired i).1
        obtain ⟨g1, g2, g3⟩ := markConnectionExpired_fields p i
        exact ⟨h1.trans g1, h2.trans g2, h3.trans g3⟩

/-- With no callback registered the sweep loop invokes nothing. -/
theorem expireLoop_calls_none (maxIdle cur : Nat) :
    ∀ fuel i (p : PeerConnections), p.OnConnectionExpired = none →
      (expireLoop maxIdle cur fuel i p).2 = [] := by
  intro fuel
  induction fuel with
  | zero => intro i p _; rfl
  | succ n ih =>
    intro i p hnone
    rw [expireLoop]
    cases hx : p.mStates[i]? with
    | none => rfl
    | some x =>
      simp only []
      split_ifs
      · exact ih (i + 1) p hnone
      · exact ih (i + 1) p hnone
      · have h1 : (p.MarkConnectionExpired i).2 = [] := by
          simp only [MarkConnectionExpired, hx, hnone]
        rw [h1, ih (i + 1) _ ((markConnectionExpired_fields p i).1.trans hnone)]
        rfl

/-- With callback `h` registered, the invocations of the sweep loop entered at index
`i` are, in order, the invocations on the slots at or after `i` that pass the test of
the sweep, each on the contents the slot had before the sweep. -/
theorem expireLoop_calls_some (maxIdle h : Nat) :
    ∀ fuel i (p : PeerConnections), p.OnConnectionExpired = some h →
      i + fuel = p.mStates.length →
      (expireLoop maxIdle p.GetCurrentMonotonicTimeMs fuel i p).2.map some =
        ((List.range' i fuel).filter (fun j => p.sweepExpires maxIdle j)).map (p.callFor h) := by
  intro fuel
  induction fuel with
  | zero => intro i p _ _; rfl
  | succ n ih =>
    intro i p hh hlen
    have hi : i < p.mStates.length := by omega
    rw [List.range'_succ]
    cases hsw : p.sweepExpires maxIdle i with
    | false =>
      rw [expireLoop_skip maxIdle n i p hi hsw, ih (i + 1) p hh (by omega)]
      simp only [List.filter_cons, hsw, Bool.false_eq_true, if_false]
    | true =>
      have hc : (p.MarkConnectionExpired i).1.GetCurrentMonotonicTimeMs =
          p.GetCurrentMonotonicTimeMs := (markConnectionExpired_fields p i).2.2
      have hlen2 := markConnectionExpired_length p i
      rw [expireLoop_hit maxIdle n i p hi hsw]
      simp only [List.filter_cons, hsw, if_true, List.map_cons, List.map_append]
      rw [← hc, ih (i + 1) (p.MarkConnectionExpired i).1
        ((markConnectionExpired_fields p i).1.trans hh) (by omega)]
      have hfilter : (List.range' (i + 1) n).filter
            (fun j => (p.MarkConnectionExpired i).1.sweepExpires maxIdle j) =
          (List.range' (i + 1) n).filter (fun j => p.sweepExpires maxIdle j) := by
        apply List.filter_congr
        intro j hj
        have hj2 := List.mem_range'_1.1 hj
        exact sweepExpires_markConnectionExpired_ne p maxIdle i j (by omega)
      have hmap : ((List.range' (i + 1) n).filter (fun j => p.sweepExpires maxIdle j)).map
            ((p.MarkConnectionExpired i).1.callFor h) =
          ((List.range' (i + 1) n).filter (fun j => p.sweepExpires maxIdle j)).map
            (p.callFor h) := by
        apply List.map_congr_left
        intro j hj
        have hj2 := List.mem_range'_1.1 (List.mem_filter.1 hj).1
        exact callFor_markConnectionExpired_ne p h i j (by omega)
      rw [hfilter, hmap]
      have hfirst : (p.MarkConnectionExpired i).2.map some = [p.callFor h i] := by
        simp only [MarkConnectionExpired, callFor, List.getElem?_eq_getElem hi, hh,
          List.map_cons, List.map_nil]
      rw [hfirst]
      rfl

/-- The pool after the sweep has the callback, context and time source it had. -/
theorem expireInactiveConnections_fields (p : PeerConnections) (maxIdle : Nat) :
    (p.ExpireInactiveConnections maxIdle).1.OnConnectionExpired = p.OnConnectionExpired ∧
      (p.ExpireInactiveConnections maxIdle).1.mConnectionExpiredArgument =
        p.mConnectionExpiredArgument ∧
      (p.ExpireInactiveConnections maxIdle).1.mTimeSource = p.mTimeSource :=
  expireLoop_fields maxIdle _ _ 0 p

/-- With callback `h` registered, the invocations of the sweep are, in order, the
invocations on the swept slots, each on the contents the slot had before the sweep. -/
theorem expireInactiveConnections_calls (p : PeerConnections) (maxIdle h : Nat)
    (hh : p.OnConnectionExpired = some h) :
    (p.ExpireInactiveConnections maxIdle).2.map some =
      (p.sweptSlots maxIdle).map (p.callFor h) := by
  unfold ExpireInactiveConnections sweptSlots
  rw [expireLoop_calls_some maxIdle h _ 0 p hh (by simp [kMaxConnectionCount]),
    List.range_eq_range']

theorem mem_sweptSlots (p : PeerConnections) (maxIdle j : Nat) :
    j ∈ p.sweptSlots maxIdle ↔ p.sweepExpires maxIdle j = true := by
  simp only [sweptSlots, List.mem_filter, List.mem_range, kMaxConnectionCount]
  constructor
  · intro h; exact h.2
  · intro h; exact ⟨sweepExpires_lt h, h⟩

theorem sweptSlots_pairwise (p : PeerConnections) (maxIdle : Nat) :
    (p.sweptSlots maxIdle).Pairwise (fun a b => a < b) :=
  List.Pairwise.filter _ (List.pairwise_lt_range _)

theorem sweptSlots_count (p : PeerConnections) (maxIdle j : Nat)
    (h : p.sweepExpires maxIdle j = true) : (p.sweptSlots maxIdle).count j = 1 :=
  List.count_eq_one_of_mem (List.Nodup.filter _ (List.nodup_range _))
    ((mem_sweptSlots p maxIdle j).2 h)

/-- The test of the sweep on an existing slot, spelled out. -/
theorem sweepExpires_iff (p : PeerConnections) (maxIdle i : Nat) (s : PeerConnectionState)
    (hs : p.mStates[i]? = some s) :
    p.sweepExpires maxIdle i = true ↔
      (s.GetPeerAddress.IsInitialized = true ∧
        (s.GetLastActivityTimeMs + maxIdle) % 2 ^ 64 < p.GetCurrentMonotonicTimeMs) := by
  simp only [sweepExpires, hs, Bool.and_eq_true, Bool.not_eq_true', decide_eq_false_iff_not,
    ge_iff_le, not_le]

/-- C19: `ExpireInactiveConnections` changes only the slots it expires.  A slot that
does not pass the test of the sweep (no initialized address, or not idle beyond the
limit) has the contents it had; a slot that passes is reset; callback, context and time
source are unchanged.  With a callback registered, the list of its invocations is the
list of the expired slots in strictly increasing slot order, one invocation per expired
slot on the contents the slot had before the sweep, and none for a kept slot; with no
callback registered nothing is invoked. -/
theorem expireInactiveConnections_frame (p : PeerConnections) (maxIdle : Nat) :
    (∀ j, p.sweepExpires maxIdle j = false →
      (p.ExpireInactiveConnections maxIdle).1.mStates[j]? = p.mStates[j]?) ∧
    (∀ j, p.sweepExpires maxIdle j = true →
      (p.ExpireInactiveConnections maxIdle).1.mStates[j]? =
        some (PeerConnectionState.ofAddress PeerAddress.Uninitialized)) ∧
    (∀ j s, p.mStates[j]? = some s →
      (p.sweepExpires maxIdle j = true ↔
        (s.GetPeerAddress.IsInitialized = true ∧
          (s.GetLastActivityTimeMs + maxIdle) % 2 ^ 64 < p.GetCurrentMonotonicTimeMs))) ∧
    (p.ExpireInactiveConnections maxIdle).1.OnConnectionExpired = p.OnConnectionExpired ∧
    (p.ExpireInactiveConnections maxIdle).1.mConnectionExpiredArgument =
      p.mConnectionExpiredArgument ∧
    (p.ExpireInactiveConnections maxIdle).1.mTimeSource = p.mTimeSource ∧
    (∀ h, p.OnConnectionExpired = some h →
      (p.ExpireInactiveConnections maxIdle).2.map some =
        (p.sweptSlots maxIdle).map (p.callFor h)) ∧
    (p.OnConnectionExpired = none → (p.ExpireInactiveConnections maxIdle).2 = []) ∧
    (p.sweptSlots maxIdle).Pairwise (fun a b => a < b) ∧
    (∀ j, j ∈ p.sweptSlots maxIdle ↔ p.sweepExpires maxIdle j = true) := by
  obtain ⟨f1, f2, f3⟩ := expireInactiveConnections_fields p maxIdle
  refine ⟨?_, ?_, fun j s hs => sweepExpires_iff p maxIdle j s hs, f1, f2, f3,
    fun h hh => expireInactiveConnections_calls p maxIdle h hh, ?_,
    sweptSlots_pairwise p maxIdle, mem_sweptSlots p maxIdle⟩
  · intro j hj
    rw [expireInactiveConnections_getElem?]
    simp [hj]
  · intro j hj
    rw [expireInactiveConnections_getElem?]
    simp [hj]
  · intro hnone
    exact expireLoop_calls_none maxIdle _ _ 0 p hnone

/-- Witness for `expireInactiveConnections_frame`: capacity 3 at time 100 with handler
7 and context 8; slots 0 and 2 are idle beyond the limit 20, slot 1 is not. -/
theorem expireInactiveConnections_frame_witness :
    ((PeerConnections.mk 100
        [(PeerConnectionState.ofAddress (PeerAddress.known 1)).SetLastActivityTimeMs 10,
          (PeerConnectionState.ofAddress (PeerAddress.known 2)).SetLastActivityTimeMs 95,
          (PeerConnectionState.ofAddress (PeerAddress.known 3)).SetLastActivityTimeMs 30]
        (some 7) 8).ExpireInactiveConnections 20).2.map some =
      ((PeerConnections.mk 100
        [(PeerConnectionState.ofAddress (PeerAddress.known 1)).SetLastActivityTimeMs 10,
          (PeerConnectionState.ofAddress (PeerAddress.known 2)).SetLastActivityTimeMs 95,
          (PeerConnectionState.ofAddress (PeerAddress.known 3)).SetLastActivityTimeMs 30]
        (some 7) 8).sweptSlots 20).map
        ((PeerConnections.mk 100
        [(PeerConnectionState.ofAddress (PeerAddress.known 1)).SetLastActivityTimeMs 10,
          (PeerConnectionState.ofAddress (PeerAddress.known 2)).SetLastActivityTimeMs 95,
          (PeerConnectionState.ofAddress (PeerAddress.known 3)).SetLastActivityTimeMs 30]
        (some 7) 8).callFor 7) ∧
    (PeerConnections.mk 100
        [(PeerConnectionState.ofAddress (PeerAddress.known 1)).SetLastActivityTimeMs 10,
          (PeerConnectionState.ofAddress (PeerAddress.known 2)).SetLastActivityTimeMs 95,
          (PeerConnectionState.ofAddress (PeerAddress.known 3)).SetLastActivityTimeMs 30]
        (some 7) 8).sweptSlots 20 = [0, 2] :=
  ⟨(expireInactiveConnections_frame
      (PeerConnections.mk 100
        [(PeerConnectionState.ofAddress (PeerAddress.known 1)).SetLastActivityTimeMs 10,
          (PeerConnectionState.ofAddress (PeerAddress.known 2)).SetLastActivityTimeMs 95,
          (PeerConnectionState.ofAddress (PeerAddress.known 3)).SetLastActivityTimeMs 30]
        (some 7) 8) 20).2.2.2.2.2.2.1 7 rfl, by decide⟩

/-- C13, as stated, fails: a pool of capacity 1 with handler 7 whose slot 0 was created
by `(peerNode 9, peerKeyId 3, localKeyId 4)` at time 0 is initialized, and at time 100
its last-activity time plus the idle limit 10 is less than the current time; the sweep
leaves the pool as it is and invokes no callback, because the address of the slot is
uninitialized. -/
theorem sweep_skips_key_created_slot_counterexample :
    (PeerConnections.mk 100 (((empty 1 0).SetConnectionExpiredHandler (some 7)
        8).CreateNewPeerConnectionStateByKeys (some 9) 3 4).pool.mStates (some 7) 8).isLive 0 =
        true ∧
      (PeerConnections.mk 100 (((empty 1 0).SetConnectionExpiredHandler (some 7)
        8).CreateNewPeerConnectionStateByKeys (some 9) 3 4).pool.mStates (some 7)
        8).slotSatisfies 0 (fun s => s.GetLastActivityTimeMs + 10 < 100) ∧
      (PeerConnections.mk 100 (((empty 1 0).SetConnectionExpiredHandler (some 7)
        8).CreateNewPeerConnectionStateByKeys (some 9) 3 4).pool.mStates (some 7)
        8).ExpireInactiveConnections 10 =
        (PeerConnections.mk 100 (((empty 1 0).SetConnectionExpiredHandler (some 7)
          8).CreateNewPeerConnectionStateByKeys (some 9) 3 4).pool.mStates (some 7) 8, []) := by
  refine ⟨by decide, ⟨freshByKeys 0 (some 9) 3 4, by decide, by decide⟩, by decide⟩

/-- C13 (amended): for every pool, every idle limit `maxIdle` and every slot `i` with an
initialized peer address whose last-activity time plus `maxIdle` is less than the
current monotonic time, `ExpireInactiveConnections(maxIdle)` expires slot `i`: the slot
is uninitialized afterwards, `i` occurs exactly once among the expired slots, and with
a callback registered the invocations are, in order, one per expired slot, the one for
slot `i` on the contents the slot had. -/
theorem sweep_expires_idle_address_slot (p : PeerConnections) (maxIdle i : Nat)
    (s : PeerConnectionState) (hs : p.mStates[i]? = some s)
    (haddr : s.GetPeerAddress.IsInitialized = true)
    (hnow : p.GetCurrentMonotonicTimeMs < 2 ^ 64)
    (hidle : s.GetLastActivityTimeMs + maxIdle < p.GetCurrentMonotonicTimeMs) :
    (p.ExpireInactiveConnections maxIdle).1.isFree i = true ∧
      (p.sweptSlots maxIdle).count i = 1 ∧
      (∀ h, p.OnConnectionExpired = some h →
        (p.ExpireInactiveConnections maxIdle).2.map some =
            (p.sweptSlots maxIdle).map (p.callFor h) ∧
          p.callFor h i = some ⟨h, s, p.mConnectionExpiredArgument⟩) := by
  have hsw : p.sweepExpires maxIdle i = true := by
    rw [sweepExpires_iff p maxIdle i s hs]
    refine ⟨haddr, ?_⟩
    rw [Nat.mod_eq_of_lt (by omega)]
    exact hidle
  refine ⟨?_, sweptSlots_count p maxIdle i hsw, ?_⟩
  · simp [isFree, expireInactiveConnections_getElem?, hsw, reset_not_isInitialized]
  · intro h hh
    refine ⟨expireInactiveConnections_calls p maxIdle h hh, ?_⟩
    simp only [callFor, hs]

/-- Witness for `sweep_expires_idle_address_slot`: slot 0 of a pool at time 100 was last
active at 10; the idle limit is 20. -/
theorem sweep_expires_idle_address_slot_witness :
    ((PeerConnections.mk 100
        [(PeerConnectionState.ofAddress (PeerAddress.known 1)).SetLastActivityTimeMs 10]
        (some 7) 8).ExpireInactiveConnections 20).1.isFree 0 = true ∧
      ((PeerConnections.mk 100
        [(PeerConnectionState.ofAddress (PeerAddress.known 1)).SetLastActivityTimeMs 10]
        (some 7) 8).sweptSlots 20).count 0 = 1 :=
  ⟨(sweep_expires_idle_address_slot
      (PeerConnections.mk 100
        [(PeerConnectionState.ofAddress (PeerAddress.known 1)).SetLastActivityTimeMs 10]
        (some 7) 8) 20 0
      ((PeerConnectionState.ofAddress (PeerAddress.known 1)).SetLastActivityTimeMs 10)
      rfl rfl (by decide) (by decide)).1,
    (sweep_expires_idle_address_slot
      (PeerConnections.mk 100
        [(PeerConnectionState.ofAddress (PeerAddress.known 1)).SetLastActivityTimeMs 10]
        (some 7) 8) 20 0
      ((PeerConnectionState.ofAddress (PeerAddress.known 1)).SetLastActivityTimeMs 10)
      rfl rfl (by decide) (by decide)).2.1⟩

/-- C15: for a slot with an initialized address whose last-activity time is not after
the current time and for which `lastActivity + maxIdle` does not overflow 64 bits, the
sweep expires the slot (it is among the swept slots, for which the callback runs, and it
is uninitialized afterwards) if and only if `now - lastActivity > maxIdle`; otherwise
the slot keeps its contents, in particular when it was idle for exactly `maxIdle`. -/
theorem sweep_comparison_direction (p : PeerConnections) (maxIdle i : Nat)
    (s : PeerConnectionState) (hs : p.mStates[i]? = some s)
    (haddr : s.GetPeerAddress.IsInitialized = true)
    (hle : s.GetLastActivityTimeMs ≤ p.GetCurrentMonotonicTimeMs)
    (hno : s.GetLastActivityTimeMs + maxIdle < 2 ^ 64) :
    (i ∈ p.sweptSlots maxIdle ↔
      p.GetCurrentMonotonicTimeMs - s.GetLastActivityTimeMs > maxIdle) ∧
    ((p.ExpireInactiveConnections maxIdle).1.isFree i = true ↔
      p.GetCurrentMonotonicTimeMs - s.GetLastActivityTimeMs > maxIdle) ∧
    (¬ (p.GetCurrentMonotonicTimeMs - s.GetLastActivityTimeMs > maxIdle) →
      (p.ExpireInactiveConnections maxIdle).1.mStates[i]? = some s) ∧
    (p.GetCurrentMonotonicTimeMs - s.GetLastActivityTimeMs = maxIdle →
      (p.ExpireInactiveConnections maxIdle).1.mStates[i]? = some s ∧
        i ∉ p.sweptSlots maxIdle) ∧
    (∀ h, p.OnConnectionExpired = some h →
      (p.ExpireInactiveConnections maxIdle).2.map some =
        (p.sweptSlots maxIdle).map (p.callFor h)) := by
  have hsw : p.sweepExpires maxIdle i = true ↔
      p.GetCurrentMonotonicTimeMs - s.GetLastActivityTimeMs > maxIdle := by
    rw [sweepExpires_iff p maxIdle i s hs, Nat.mod_eq_of_lt hno]
    constructor
    · intro h; omega
    · intro h; exact ⟨haddr, by omega⟩
  have hlive : s.IsInitialized = true := by
    simp [PeerConnectionState.IsInitialized, PeerConnectionState.GetPeerAddress] at haddr ⊢
    exact Or.inl (Or.inl (Or.inl haddr))
  have hkeep : ¬ (p.GetCurrentMonotonicTimeMs - s.GetLastActivityTimeMs > maxIdle) →
      (p.ExpireInactiveConnections maxIdle).1.mStates[i]? = some s := by
    intro h
    have hf : p.sweepExpires maxIdle i = false := by
      cases hx : p.sweepExpires maxIdle i with
      | false => rfl
      | true => exact absurd (hsw.1 hx) h
    rw [expireInactiveConnections_getElem?]
    simp [hf, hs]
  refine ⟨(mem_sweptSlots p maxIdle i).trans hsw, ?_, hkeep, ?_,
    fun h hh => expireInactiveConnections_calls p maxIdle h hh⟩
  · constructor
    · intro hfree
      by_contra hc
      simp only [isFree, hkeep hc, hlive, Bool.not_true] at hfree
      exact absurd hfree (by decide)
    · intro h
      simp [isFree, expireInactiveConnections_getElem?, hsw.2 h, reset_not_isInitialized]
  · intro heq
    have hnot : ¬ (p.GetCurrentMonotonicTimeMs - s.GetLastActivityTimeMs > maxIdle) := by
      omega
    exact ⟨hkeep hnot, fun hm => hnot (((mem_sweptSlots p maxIdle i).trans hsw).1 hm)⟩

/-- Witness for `sweep_comparison_direction`: a slot last active at 80 in a pool at time
100, idle limit 20: idle for exactly the limit, kept. -/
theorem sweep_comparison_direction_witness :
    ((PeerConnections.mk 100
        [(PeerConnectionState.ofAddress (PeerAddress.known 1)).SetLastActivityTimeMs 80]
        (some 7) 8).ExpireInactiveConnections 20).1.mStates[0]? =
        some ((PeerConnectionState.ofAddress (PeerAddress.known 1)).SetLastActivityTimeMs 80) ∧
      0 ∉ (PeerConnections.mk 100
        [(PeerConnectionState.ofAddress (PeerAddress.known 1)).SetLastActivityTimeMs 80]
        (some 7) 8).sweptSlots 20 :=
  (sweep_comparison_direction
    (PeerConnections.mk 100
      [(PeerConnectionState.ofAddress (PeerAddress.known 1)).SetLastActivityTimeMs 80]
      (some 7) 8) 20 0
    ((PeerConnectionState.ofAddress (PeerAddress.known 1)).SetLastActivityTimeMs 80)
    rfl rfl (by decide) (by decide)).2.2.2.1 (by decide)

/-- A slot with an initialized address that was just marked active is expired by the
sweep exactly when `now + maxIdle` does not fit 64 bits. -/
theorem sweep_expires_refreshed_iff (p : PeerConnections) (maxIdle i : Nat)
    (s : PeerConnectionState) (hs : p.mStates[i]? = some s)
    (haddr : s.GetPeerAddress.IsInitialized = true)
    (hnow : p.GetCurrentMonotonicTimeMs < 2 ^ 64) (hmax : maxIdle < 2 ^ 64) :
    (p.MarkConnectionActive i).sweepExpires maxIdle i = true ↔
      2 ^ 64 ≤ p.GetCurrentMonotonicTimeMs + maxIdle := by
  have hi : i < p.mStates.length := by
    by_contra hc
    have hn : p.mStates[i]? = none := List.getElem?_eq_none (by omega)
    rw [hn] at hs
    exact Option.noConfusion hs
  have hrun : p.MarkConnectionActive i =
      { p with mStates :=
          (p.mStates.set i (s.SetLastActivityTimeMs p.GetCurrentMonotonicTimeMs)) } := by
    simp only [MarkConnectionActive, hs]
  have hslot : (p.MarkConnectionActive i).mStates[i]? =
      some (s.SetLastActivityTimeMs p.GetCurrentMonotonicTimeMs) := by
    rw [hrun]
    simp [List.getElem?_set, hi]
  have htime : (p.MarkConnectionActive i).GetCurrentMonotonicTimeMs =
      p.GetCurrentMonotonicTimeMs := by
    rw [hrun]; rfl
  rw [sweepExpires_iff _ maxIdle i _ hslot, htime]
  have hlast : (s.SetLastActivityTimeMs p.GetCurrentMonotonicTimeMs).GetLastActivityTimeMs =
      p.GetCurrentMonotonicTimeMs := rfl
  have haddr2 : (s.SetLastActivityTimeMs
      p.GetCurrentMonotonicTimeMs).GetPeerAddress.IsInitialized = true := haddr
  rw [hlast]
  constructor
  · rintro ⟨_, h⟩
    by_contra hc
    rw [Nat.mod_eq_of_lt (by omega)] at h
    omega
  · intro h
    refine ⟨haddr2, ?_⟩
    have h2 : (p.GetCurrentMonotonicTimeMs + maxIdle) % 2 ^ 64 =
        p.GetCurrentMonotonicTimeMs + maxIdle - 2 ^ 64 := by
      rw [Nat.mod_eq_sub_mod h, Nat.mod_eq_of_lt (by omega)]
    rw [h2]
    omega

/-- C14 (failing input): a pool of capacity 1 at time 1000 with handler 7 and context 8,
whose slot 0 holds a connection with address 1; the idle limit is `UINT64_MAX`.  After
`MarkConnectionActive` on slot 0 the sweep computes `1000 + UINT64_MAX` in 64 bits,
which is 999 and less than the current time, so it invokes the callback on the slot and
resets it. -/
theorem sweep_expires_refreshed_connection :
    ((PeerConnections.mk 1000
        [(PeerConnectionState.ofAddress (PeerAddress.known 1)).SetLastActivityTimeMs 5]
        (some 7) 8).MarkConnectionActive 0).ExpireInactiveConnections 18446744073709551615 =
      (PeerConnections.mk 1000 [PeerConnectionState.ofAddress PeerAddress.Uninitialized]
          (some 7) 8,
        [⟨7, (PeerConnectionState.ofAddress (PeerAddress.known 1)).SetLastActivityTimeMs 1000,
          8⟩]) := by
  decide

/-! ## Frame of the creation calls -/

theorem freshByKeys_fields (t : Nat) (peerNode : Option NodeId) (peerKeyId localKeyId : Nat) :
    (freshByKeys t peerNode peerKeyId localKeyId).GetPeerKeyID = peerKeyId ∧
      (freshByKeys t peerNode peerKeyId localKeyId).GetLocalKeyID = localKeyId ∧
      (freshByKeys t peerNode peerKeyId localKeyId).GetPeerNodeId =
        peerNode.getD kUndefinedNodeId ∧
      (freshByKeys t peerNode peerKeyId localKeyId).GetPeerAddress =
        PeerAddress.Uninitialized ∧
      (freshByKeys t peerNode peerKeyId localKeyId).GetLastActivityTimeMs = t := by
  cases peerNode <;> exact ⟨rfl, rfl, rfl, rfl, rfl⟩

theorem freshByKeys_node_compatible (t : Nat) (peerNode : Option NodeId)
    (peerKeyId localKeyId : Nat) :
    peerNode = none ∨
      (freshByKeys t peerNode peerKeyId localKeyId).GetPeerNodeId = kUndefinedNodeId ∨
      some (freshByKeys t peerNode peerKeyId localKeyId).GetPeerNodeId = peerNode := by
  cases peerNode with
  | none => exact Or.inl rfl
  | some n => exact Or.inr (Or.inr rfl)

theorem byKeys_initializes_of (peerNode : Option NodeId) (peerKeyId localKeyId : Nat)
    (h : (∃ n, peerNode = some n ∧ n ≠ kUndefinedNodeId) ∨ peerKeyId ≠ kUnsetKeyId ∨
      localKeyId ≠ kUnsetKeyId) :
    (CreateCall.byKeys peerNode peerKeyId localKeyId).initializes = true := by
  simp only [CreateCall.initializes, Bool.or_eq_true, Bool.and_eq_true, bne_iff_ne, ne_eq]
  rcases h with ⟨n, hn, hne⟩ | h | h
  · left; left
    subst hn
    exact ⟨rfl, fun hc => hne (Option.some.inj hc)⟩
  · exact Or.inl (Or.inr h)
  · exact Or.inr h

/-- C21, as stated, fails: on the empty pool of capacity 1 the creation by keys with no
peer node id and both key ids unset returns `CHIP_NO_ERROR` with the handle of slot 0,
but the slot is still uninitialized, so the lookups by that peer key id and by that
local key id pass it over and return no slot (the scan runs on to `mStates[1]`). -/
theorem find_after_create_by_unset_keys_counterexample :
    ((empty 1 0).CreateNewPeerConnectionStateByKeys none kUnsetKeyId kUnsetKeyId).err =
        CHIP_ERROR.CHIP_NO_ERROR ∧
      ((empty 1 0).CreateNewPeerConnectionStateByKeys none kUnsetKeyId kUnsetKeyId).state =
        some 0 ∧
      ((empty 1 0).CreateNewPeerConnectionStateByKeys none kUnsetKeyId
        kUnsetKeyId).pool.FindPeerConnectionStateByPeerKey none kUnsetKeyId none =
        FindResult.outOfRange 1 ∧
      ((empty 1 0).CreateNewPeerConnectionStateByKeys none kUnsetKeyId
        kUnsetKeyId).pool.FindPeerConnectionStateByLocalKey none kUnsetKeyId none =
        FindResult.outOfRange 1 ∧
      (¬ ∃ k, ((empty 1 0).CreateNewPeerConnectionStateByKeys none kUnsetKeyId
        kUnsetKeyId).pool.FindPeerConnectionStateByPeerKey none kUnsetKeyId none =
        FindResult.found k) := by
  refine ⟨by decide, by decide, by decide, by decide, ?_⟩
  rintro ⟨k, hk⟩
  have h : ((empty 1 0).CreateNewPeerConnectionStateByKeys none kUnsetKeyId
      kUnsetKeyId).pool.FindPeerConnectionStateByPeerKey none kUnsetKeyId none =
      FindResult.outOfRange 1 := by decide
  rw [h] at hk
  exact FindResult.noConfusion hk

/-- C21 (amended): in a pool with a free slot, `CreateNewPeerConnectionState(peerNode,
peerKeyId, localKeyId)` returns `CHIP_NO_ERROR`, and the returned slot has exactly those
key ids, peer node id `peerNode` when given and undefined otherwise, an uninitialized
address and the current time as last-activity time.  When the arguments are not all
unset (a peer node id other than the undefined id, or a key id other than the unset
value), `FindPeerConnectionState(peerNode, peerKeyId, nullptr)` and
`FindPeerConnectionStateByLocalKey(peerNode, localKeyId, nullptr)` then each return a
slot, at or before the created one, with that peer key id, respectively that local key
id. -/
theorem create_by_keys_then_find (p : PeerConnections) (peerNode : Option NodeId)
    (peerKeyId localKeyId i : Nat) (hfree : p.isFree i = true) :
    (p.CreateNewPeerConnectionStateByKeys peerNode peerKeyId localKeyId).err =
        CHIP_ERROR.CHIP_NO_ERROR ∧
    ∃ k s, (p.CreateNewPeerConnectionStateByKeys peerNode peerKeyId localKeyId).state =
        some k ∧
      (p.CreateNewPeerConnectionStateByKeys peerNode peerKeyId localKeyId).pool.mStates[k]? =
        some s ∧
      s.GetPeerKeyID = peerKeyId ∧ s.GetLocalKeyID = localKeyId ∧
      s.GetPeerNodeId = peerNode.getD kUndefinedNodeId ∧
      s.GetPeerAddress = PeerAddress.Uninitialized ∧
      s.GetLastActivityTimeMs = p.GetCurrentMonotonicTimeMs ∧
      (((∃ n, peerNode = some n ∧ n ≠ kUndefinedNodeId) ∨ peerKeyId ≠ kUnsetKeyId ∨
          localKeyId ≠ kUnsetKeyId) →
        (∃ a, a ≤ k ∧
          (p.CreateNewPeerConnectionStateByKeys peerNode peerKeyId
            localKeyId).pool.FindPeerConnectionStateByPeerKey peerNode peerKeyId none =
            FindResult.found a ∧
          (p.CreateNewPeerConnectionStateByKeys peerNode peerKeyId
            localKeyId).pool.slotSatisfies a (fun x => x.GetPeerKeyID = peerKeyId)) ∧
        (∃ b, b ≤ k ∧
          (p.CreateNewPeerConnectionStateByKeys peerNode peerKeyId
            localKeyId).pool.FindPeerConnectionStateByLocalKey peerNode localKeyId none =
            FindResult.found b ∧
          (p.CreateNewPeerConnectionStateByKeys peerNode peerKeyId
            localKeyId).pool.slotSatisfies b (fun x => x.GetLocalKeyID = localKeyId))) := by
  obtain ⟨k, _, hk, hlow⟩ := exists_lowest_free hfree
  have hkL : k < p.mStates.length := isFree_lt hk
  have hrun := createLoop_of_lowest_free p
    (freshByKeys p.GetCurrentMonotonicTimeMs peerNode peerKeyId localKeyId) k hk hlow
  unfold CreateNewPeerConnectionStateByKeys
  rw [hrun]
  obtain ⟨f1, f2, f3, f4, f5⟩ :=
    freshByKeys_fields p.GetCurrentMonotonicTimeMs peerNode peerKeyId localKeyId
  have hslot : (p.mStates.set k
      (freshByKeys p.GetCurrentMonotonicTimeMs peerNode peerKeyId localKeyId))[k]? =
      some (freshByKeys p.GetCurrentMonotonicTimeMs peerNode peerKeyId localKeyId) := by
    simp [List.getElem?_set, hkL]
  refine ⟨rfl, k, _, rfl, hslot, f1, f2, f3, f4, f5, ?_⟩
  intro hargs
  have hinit : (freshByKeys p.GetCurrentMonotonicTimeMs peerNode peerKeyId
      localKeyId).IsInitialized = true :=
    CreateCall.fresh_isInitialized p.GetCurrentMonotonicTimeMs
      (CreateCall.byKeys peerNode peerKeyId localKeyId)
      (byKeys_initializes_of peerNode peerKeyId localKeyId hargs)
  have hnode :=
    freshByKeys_node_compatible p.GetCurrentMonotonicTimeMs peerNode peerKeyId localKeyId
  constructor
  · have hhit : hitsAt
        { p with mStates := (p.mStates.set k
            (freshByKeys p.GetCurrentMonotonicTimeMs peerNode peerKeyId localKeyId)) }
        (hitPeerKey peerNode peerKeyId) k = true := by
      rw [hitsAt_iff]
      exact ⟨_, hslot, (hitPeerKey_iff _ _ _).2 ⟨hinit, f1, hnode⟩⟩
    obtain ⟨a, ha1, ha2, ha3, _⟩ := scanFrom_null_of_hit hhit
    obtain ⟨x, hx1, hx2⟩ := (hitsAt_iff _ _ _).1 ha3
    exact ⟨a, ha1, ha2, x, hx1, ((hitPeerKey_iff _ _ _).1 hx2).2.1⟩
  · have hhit : hitsAt
        { p with mStates := (p.mStates.set k
            (freshByKeys p.GetCurrentMonotonicTimeMs peerNode peerKeyId localKeyId)) }
        (hitLocalKey peerNode localKeyId) k = true := by
      rw [hitsAt_iff]
      exact ⟨_, hslot, (hitLocalKey_iff _ _ _).2 ⟨hinit, f2, hnode⟩⟩
    obtain ⟨b, hb1, hb2, hb3, _⟩ := scanFrom_null_of_hit hhit
    obtain ⟨x, hx1, hx2⟩ := (hitsAt_iff _ _ _).1 hb3
    exact ⟨b, hb1, hb2, x, hx1, ((hitLocalKey_iff _ _ _).1 hx2).2.1⟩

/-- Witness for `create_by_keys_then_find`: capacity 2 with slot 0 taken by a connection
with the same peer key id; creation by keys with node id 9 and key ids 3 and 4. -/
theorem create_by_keys_then_find_witness :
    ((PeerConnections.mk 5 [freshByKeys 1 (some 8) 3 6, PeerConnectionState.new]
        none 0).CreateNewPeerConnectionStateByKeys (some 9) 3 4).err =
      CHIP_ERROR.CHIP_NO_ERROR ∧
    ((PeerConnections.mk 5 [freshByKeys 1 (some 8) 3 6, PeerConnectionState.new]
        none 0).CreateNewPeerConnectionStateByKeys (some 9) 3 4).state = some 1 :=
  ⟨(create_by_keys_then_find
      (PeerConnections.mk 5 [freshByKeys 1 (some 8) 3 6, PeerConnectionState.new] none 0)
      (some 9) 3 4 1 (by decide)).1, by decide⟩

end PeerConnections

end Transport

/-! Fixed-secret pairing session and serialization. -/

namespace SecurePairingUsingTestSecret

theorem secret_eq :
    secret = [84, 101, 115, 116, 32, 115, 101, 99, 114, 101, 116, 32, 102, 111, 114, 32,
      107, 101, 121, 32, 100, 101, 114, 105, 118, 97, 116, 105, 111, 110] := by
  decide

theorem secretLen_eq : secretLen = 30 := by
  decide

theorem memmove_secret_take (buf : List Nat) :
    (memmove buf secret secretLen).take secretLen = secret := by
  unfold memmove
  have h1 : secret.take secretLen = secret := List.take_length secret
  rw [h1]
  exact List.take_left secret (buf.drop secretLen)

/-- C17: a `SecurePairingUsingTestSecret` built by either constructor, from any state of
the base object and with any arguments, is complete, has Ke length 30, which fits the Ke
buffer, and its Ke bytes are the ASCII text "Test secret for key derivation";
`WaitForPairing`, `Pair` and `HandlePeerMessage` return `CHIP_NO_ERROR` for every input
and leave the session (Ke, completion flag and identifiers included) as it is. -/
theorem test_secret_session (base : SecurePairingSession) (peerNodeId : Option NodeId)
    (peerKeyId localKeyId : Nat) (s : SecurePairingSession)
    (hs : s = construct base ∨ s = constructWithIds base peerNodeId peerKeyId localKeyId) :
    s.mPairingComplete = true ∧
      s.mKeLen = 30 ∧
      s.mKeLen ≤ kMAX_Hash_Length ∧
      s.mKe.take s.mKeLen = secretText.toList.map Char.toNat ∧
      s.mKe.take s.mKeLen =
        [84, 101, 115, 116, 32, 115, 101, 99, 114, 101, 116, 32, 102, 111, 114, 32,
          107, 101, 121, 32, 100, 101, 114, 105, 118, 97, 116, 105, 111, 110] ∧
      (∀ pin iter salt nodeId keyId delegate,
        WaitForPairing s pin iter salt nodeId keyId delegate =
          (CHIP_ERROR.CHIP_NO_ERROR, s)) ∧
      (∀ pin iter salt nodeId keyId delegate,
        Pair s pin iter salt nodeId keyId delegate = (CHIP_ERROR.CHIP_NO_ERROR, s)) ∧
      (∀ header address msg,
        HandlePeerMessage s header address msg = (CHIP_ERROR.CHIP_NO_ERROR, s)) := by
  have hlen : s.mKeLen = secretLen := by
    rcases hs with h | h <;> rw [h] <;> rfl
  have hke : s.mKe = memmove base.mKe secret secretLen := by
    rcases hs with h | h <;> rw [h] <;> rfl
  have hdone : s.mPairingComplete = true := by
    rcases hs with h | h <;> rw [h] <;> rfl
  have htake : s.mKe.take s.mKeLen = secret := by
    rw [hlen, hke]
    exact memmove_secret_take base.mKe
  refine ⟨hdone, hlen.trans secretLen_eq, ?_, htake, htake.trans secret_eq,
    fun _ _ _ _ _ _ => rfl, fun _ _ _ _ _ _ => rfl, fun _ _ _ => rfl⟩
  rw [hlen, secretLen_eq]
  decide

/-- Witness for `test_secret_session`: the three-argument constructor on a base object
with an all-zero Ke buffer. -/
theorem test_secret_session_witness :
    (constructWithIds ⟨some kUndefinedNodeId, some kUndefinedNodeId, 0, 0,
        List.replicate 32 0, 32, false⟩ (some 5) 6 7).mPairingComplete = true ∧
      (constructWithIds ⟨some kUndefinedNodeId, some kUndefinedNodeId, 0, 0,
        List.replicate 32 0, 32, false⟩ (some 5) 6 7).mKeLen = 30 :=
  ⟨(test_secret_session ⟨some kUndefinedNodeId, some kUndefinedNodeId, 0, 0,
      List.replicate 32 0, 32, false⟩ (some 5) 6 7 _ (Or.inr rfl)).1,
    (test_secret_session ⟨some kUndefinedNodeId, some kUndefinedNodeId, 0, 0,
      List.replicate 32 0, 32, false⟩ (some 5) 6 7 _ (Or.inr rfl)).2.1⟩

end SecurePairingUsingTestSecret

/-! Byte layout and text armor of the serialized record. -/

theorem toBytesLE_length : ∀ w n, (toBytesLE w n).length = w := by
  intro w
  induction w with
  | zero => intro n; rfl
  | succ w ih => intro n; simp [toBytesLE, ih]

theorem toBytesLE_lt : ∀ w n b, b ∈ toBytesLE w n → b < 256 := by
  intro w
  induction w with
  | zero => intro n b hb; simp [toBytesLE] at hb
  | succ w ih =>
    intro n b hb
    simp only [toBytesLE, List.mem_cons] at hb
    rcases hb with h | h
    · omega
    · exact ih _ b h

theorem fromBytesLE_toBytesLE : ∀ w n, n < 256 ^ w → fromBytesLE (toBytesLE w n) = n := by
  intro w
  induction w with
  | zero => intro n h; simp at h; simp [toBytesLE, fromBytesLE, h]
  | succ w ih =>
    intro n h
    have hdiv : n / 256 < 256 ^ w := by
      rw [Nat.div_lt_iff_lt_mul (by decide)]
      rw [pow_succ] at h
      exact h
    simp only [toBytesLE, fromBytesLE, ih _ hdiv]
    omega

theorem take_drop_append (l₁ l₂ : List Nat) (n : Nat) (h : l₁.length = n) :
    (l₁ ++ l₂).take n = l₁ ∧ (l₁ ++ l₂).drop n = l₂ := by
  subst h
  exact ⟨List.take_left l₁ l₂, List.drop_left l₁ l₂⟩

theorem serializableOfBytes_serializableBytes (r : SecurePairingSessionSerializable)
    (hke : r.mKe.length = kMAX_Hash_Length) (h1 : r.mKeLen < 2 ^ 16)
    (h2 : r.mPairingComplete < 2 ^ 8) (h3 : r.mLocalNodeId < 2 ^ 64)
    (h4 : r.mPeerNodeId < 2 ^ 64) (h5 : r.mLocalKeyId < 2 ^ 16) (h6 : r.mPeerKeyId < 2 ^ 16) :
    serializableOfBytes (serializableBytes r) = some r := by
  have hlen : (serializableBytes r).length = kSerializableLength := by
    simp only [serializableBytes, List.length_append, toBytesLE_length, hke,
      kSerializableLength]
    omega
  have hmax : kMAX_Hash_Length = 32 := rfl
  simp only [serializableOfBytes, hlen, if_true]
  have s1 := take_drop_append (toBytesLE 2 r.mKeLen) (r.mKe ++ (toBytesLE 1 r.mPairingComplete ++
    (toBytesLE 8 r.mLocalNodeId ++ (toBytesLE 8 r.mPeerNodeId ++
      (toBytesLE 2 r.mLocalKeyId ++ toBytesLE 2 r.mPeerKeyId))))) 2 (toBytesLE_length _ _)
  have s2 := take_drop_append r.mKe (toBytesLE 1 r.mPairingComplete ++
    (toBytesLE 8 r.mLocalNodeId ++ (toBytesLE 8 r.mPeerNodeId ++
      (toBytesLE 2 r.mLocalKeyId ++ toBytesLE 2 r.mPeerKeyId)))) kMAX_Hash_Length hke
  have s3 := take_drop_append (toBytesLE 1 r.mPairingComplete)
    (toBytesLE 8 r.mLocalNodeId ++ (toBytesLE 8 r.mPeerNodeId ++
      (toBytesLE 2 r.mLocalKeyId ++ toBytesLE 2 r.mPeerKeyId))) 1 (toBytesLE_length _ _)
  have s4 := take_drop_append (toBytesLE 8 r.mLocalNodeId) (toBytesLE 8 r.mPeerNodeId ++
      (toBytesLE 2 r.mLocalKeyId ++ toBytesLE 2 r.mPeerKeyId)) 8 (toBytesLE_length _ _)
  have s5 := take_drop_append (toBytesLE 8 r.mPeerNodeId)
      (toBytesLE 2 r.mLocalKeyId ++ toBytesLE 2 r.mPeerKeyId) 8 (toBytesLE_length _ _)
  have s6 := take_drop_append (toBytesLE 2 r.mLocalKeyId) (toBytesLE 2 r.mPeerKeyId) 2
    (toBytesLE_length _ _)
  have s7 : (toBytesLE 2 r.mPeerKeyId).take 2 = toBytesLE 2 r.mPeerKeyId :=
    List.take_of_length_le (by rw [toBytesLE_length])
  simp only [serializableBytes, s1.1, s1.2, s2.1, s2.2, s3.1, s3.2, s4.1, s4.2, s5.1, s5.2,
    s6.1, s6.2, s7]
  rw [fromBytesLE_toBytesLE 2 _ (by omega), fromBytesLE_toBytesLE 1 _ (by omega),
    fromBytesLE_toBytesLE 8 _ (by omega), fromBytesLE_toBytesLE 8 _ (by omega),
    fromBytesLE_toBytesLE 2 _ (by omega), fromBytesLE_toBytesLE 2 _ (by omega)]

theorem Base64CharToVal_ValToChar : ∀ v, v < 64 → Base64CharToVal (Base64ValToChar v) = some v := by
  decide

theorem Base64ValToChar_ne_pad : ∀ v, v < 64 → Base64ValToChar v ≠ 61 := by
  decide

theorem Base64Decode_Encode : ∀ (n : Nat) (bytes : List Nat), bytes.length ≤ n →
    (∀ b, b ∈ bytes → b < 256) → Base64Decode (Base64Encode bytes) = some bytes := by
  intro n
  induction n with
  | zero =>
    intro bytes hlen _
    have : bytes = [] := List.length_eq_zero.1 (by omega)
    subst this
    rfl
  | succ n ih =>
    intro bytes hlen hb
    match bytes, hlen, hb with
    | [], _, _ => rfl
    | [a], _, hb =>
      have ha : a < 256 := hb a (by simp)
      have h0 := Base64CharToVal_ValToChar (a / 4) (by omega)
      have h1 := Base64CharToVal_ValToChar (a % 4 * 16) (by omega)
      simp only [Base64Encode, Base64Decode, h0, h1, and_self, if_true]
      congr 2
      omega
    | [a, b], _, hb =>
      have ha : a < 256 := hb a (by simp)
      have hbb : b < 256 := hb b (by simp)
      have h0 := Base64CharToVal_ValToChar (a / 4) (by omega)
      have h1 := Base64CharToVal_ValToChar (a % 4 * 16 + b / 16) (by omega)
      have h2 := Base64CharToVal_ValToChar (b % 16 * 4) (by omega)
      have n2 := Base64ValToChar_ne_pad (b % 16 * 4) (by omega)
      simp only [Base64Encode, Base64Decode, h0, h1, h2, n2, if_false, if_true]
      congr 2
      · omega
      · congr 1
        omega
    | a :: b :: c :: rest, hlen, hb =>
      have ha : a < 256 := hb a (by simp)
      have hbb : b < 256 := hb b (by simp)
      have hc : c < 256 := hb c (by simp)
      have h0 := Base64CharToVal_ValToChar (a / 4) (by omega)
      have h1 := Base64CharToVal_ValToChar (a % 4 * 16 + b / 16) (by omega)
      have h2 := Base64CharToVal_ValToChar (b % 16 * 4 + c / 64) (by omega)
      have h3 := Base64CharToVal_ValToChar (c % 64) (by omega)
      have n2 := Base64ValToChar_ne_pad (b % 16 * 4 + c / 64) (by omega)
      have n3 := Base64ValToChar_ne_pad (c % 64) (by omega)
      have hrec := ih rest (by simp only [List.length_cons] at hlen; omega)
        (fun x hx => hb x (by simp [hx]))
      have e0 : a / 4 * 4 + (a % 4 * 16 + b / 16) / 16 = a := by omega
      have e1 : (a % 4 * 16 + b / 16) % 16 * 16 + (b % 16 * 4 + c / 64) / 4 = b := by omega
      have e2 : (b % 16 * 4 + c / 64) % 4 * 64 + c % 64 = c := by omega
      simp only [Base64Encode, Base64Decode, h0, h1, h2, h3, n2, n3, if_false, hrec, e0, e1,
        e2]
      rfl


theorem serializableBytes_lt (r : SecurePairingSessionSerializable)
    (hke : ∀ b, b ∈ r.mKe → b < 256) : ∀ b, b ∈ serializableBytes r → b < 256 := by
  intro b hb
  simp only [serializableBytes, List.mem_append] at hb
  rcases hb with h | h | h | h | h | h | h
  · exact toBytesLE_lt _ _ b h
  · exact hke b h
  · exact toBytesLE_lt _ _ b h
  · exact toBytesLE_lt _ _ b h
  · exact toBytesLE_lt _ _ b h
  · exact toBytesLE_lt _ _ b h
  · exact toBytesLE_lt _ _ b h

namespace SecurePairingSession

/-- De-armoring the armored record gives the record back, for a record whose fields are
in the range of their types. -/
theorem dearmorBase64_armorBase64 (r : SecurePairingSessionSerializable)
    (hke : r.mKe.length = kMAX_Hash_Length) (hbytes : ∀ b, b ∈ r.mKe → b < 256)
    (h1 : r.mKeLen < 2 ^ 16) (h2 : r.mPairingComplete < 2 ^ 8) (h3 : r.mLocalNodeId < 2 ^ 64)
    (h4 : r.mPeerNodeId < 2 ^ 64) (h5 : r.mLocalKeyId < 2 ^ 16) (h6 : r.mPeerKeyId < 2 ^ 16) :
    dearmorBase64 (armorBase64 r) = some r := by
  unfold dearmorBase64 armorBase64
  rw [Base64Decode_Encode _ (serializableBytes r) (le_refl _) (serializableBytes_lt r hbytes)]
  exact serializableOfBytes_serializableBytes r hke h1 h2 h3 h4 h5 h6

/-- Loading the record that `ToSerializable` produced, for a session whose Ke length
fits the Ke buffer and whose identifiers are in the range of their types: the record
is in the range of its field types, and the loaded session has the Ke length, Ke bytes,
completion flag and key ids of the session; a node id is loaded as the value the
session held, or as the undefined node id when its `Optional` held no value. -/
theorem fromSerializable_toSerializable (s fresh : SecurePairingSession)
    (hlen : s.mKeLen ≤ kMAX_Hash_Length) (hbuf : s.mKe.length = kMAX_Hash_Length)
    (hbytes : ∀ b, b ∈ s.mKe → b < 256)
    (hl64 : s.mLocalNodeId.getD kUndefinedNodeId < 2 ^ 64)
    (hq64 : s.mPeerNodeId.getD kUndefinedNodeId < 2 ^ 64)
    (hlk : s.mLocalKeyId < 2 ^ 16) (hpk : s.mPeerKeyId < 2 ^ 16) :
    ∃ r t, s.ToSerializable = some r ∧ fresh.FromSerializable r = some t ∧
      dearmorBase64 (armorBase64 r) = some r ∧
      t.mKeLen = s.mKeLen ∧ t.mKe.take t.mKeLen = s.mKe.take s.mKeLen ∧
      t.mPairingComplete = s.mPairingComplete ∧
      t.mLocalNodeId = some (s.mLocalNodeId.getD kUndefinedNodeId) ∧
      t.mPeerNodeId = some (s.mPeerNodeId.getD kUndefinedNodeId) ∧
      t.mLocalKeyId = s.mLocalKeyId ∧ t.mPeerKeyId = s.mPeerKeyId := by
  have hmax : kMAX_Hash_Length = 32 := rfl
  have hlen16 : s.mKeLen % 2 ^ 16 = s.mKeLen := Nat.mod_eq_of_lt (by omega)
  have htake : (s.mKe.take s.mKeLen).length = s.mKeLen := by
    rw [List.length_take]
    omega
  have hke : ((s.mKe.take s.mKeLen ++
      List.replicate (kMAX_Hash_Length - s.mKeLen) 0).take s.mKeLen) =
      s.mKe.take s.mKeLen := by
    have h := List.take_left (s.mKe.take s.mKeLen)
      (List.replicate (kMAX_Hash_Length - s.mKeLen) 0)
    rw [htake] at h
    exact h
  have hto : s.ToSerializable = some
      { mKeLen := s.mKeLen % 2 ^ 16
        mKe := s.mKe.take s.mKeLen ++ List.replicate (kMAX_Hash_Length - s.mKeLen) 0
        mPairingComplete := if s.mPairingComplete then 1 else 0
        mLocalNodeId := s.mLocalNodeId.getD kUndefinedNodeId % 2 ^ 64
        mPeerNodeId := s.mPeerNodeId.getD kUndefinedNodeId % 2 ^ 64
        mLocalKeyId := s.mLocalKeyId % 2 ^ 16
        mPeerKeyId := s.mPeerKeyId % 2 ^ 16 } := by
    simp only [ToSerializable, hlen, if_true]
  have hfrom : ∀ r : SecurePairingSessionSerializable, r.mKeLen ≤ kMAX_Hash_Length →
      fresh.FromSerializable r = some
        { fresh with
          mKeLen := r.mKeLen
          mKe := r.mKe.take r.mKeLen ++ List.replicate (kMAX_Hash_Length - r.mKeLen) 0
          mPairingComplete := r.mPairingComplete != 0
          mLocalNodeId := some r.mLocalNodeId
          mPeerNodeId := some r.mPeerNodeId
          mLocalKeyId := r.mLocalKeyId
          mPeerKeyId := r.mPeerKeyId } := by
    intro r hr
    simp only [FromSerializable, hr, if_true]
  have harmor := dearmorBase64_armorBase64
    { mKeLen := s.mKeLen % 2 ^ 16
      mKe := s.mKe.take s.mKeLen ++ List.replicate (kMAX_Hash_Length - s.mKeLen) 0
      mPairingComplete := if s.mPairingComplete then 1 else 0
      mLocalNodeId := s.mLocalNodeId.getD kUndefinedNodeId % 2 ^ 64
      mPeerNodeId := s.mPeerNodeId.getD kUndefinedNodeId % 2 ^ 64
      mLocalKeyId := s.mLocalKeyId % 2 ^ 16
      mPeerKeyId := s.mPeerKeyId % 2 ^ 16 }
    (by simp only [List.length_append, htake, List.length_replicate]; omega)
    (by
      intro b hb
      simp only [List.mem_append, List.mem_replicate] at hb
      rcases hb with h | h
      · exact hbytes b (List.mem_of_mem_take h)
      · omega)
    (Nat.mod_lt _ (by decide))
    (by dsimp only; split <;> omega)
    (Nat.mod_lt _ (by decide)) (Nat.mod_lt _ (by decide))
    (Nat.mod_lt _ (by decide)) (Nat.mod_lt _ (by decide))
  refine ⟨_, _, hto, hfrom _ (by simp only [hlen16]; exact hlen), harmor, ?_⟩
  simp only [hlen16]
  refine ⟨trivial, ?_, ?_, ?_, ?_, ?_, ?_⟩
  · simp only [hke]
  · cases s.mPairingComplete <;> rfl
  · simp only [Nat.mod_eq_of_lt hl64]
  · simp only [Nat.mod_eq_of_lt hq64]
  · exact Nat.mod_eq_of_lt hlk
  · exact Nat.mod_eq_of_lt hpk

/-- C18, as stated, fails: the fixed-secret session built with no peer node id (an
`Optional` without a value), peer key id 6 and local key id 7 has Ke length 30; after
`Serialize` and `Deserialize` into a fresh session, and likewise after `ToSerializable`
and `FromSerializable`, the peer node id of the fresh session is the undefined node id
(an `Optional` with a value), not the peer node id of the session. -/
theorem serialize_roundtrip_missing_node_id_counterexample :
    (SecurePairingUsingTestSecret.constructWithIds
        ⟨some kUndefinedNodeId, some kUndefinedNodeId, 0, 0, List.replicate 32 0, 32, false⟩
        none 6 7).mPeerNodeId = none ∧
      (SecurePairingUsingTestSecret.constructWithIds
        ⟨some kUndefinedNodeId, some kUndefinedNodeId, 0, 0, List.replicate 32 0, 32, false⟩
        none 6 7).mKeLen = 30 ∧
      (((SecurePairingUsingTestSecret.constructWithIds
        ⟨some kUndefinedNodeId, some kUndefinedNodeId, 0, 0, List.replicate 32 0, 32, false⟩
        none 6 7).Serialize armorBase64).bind
          (Deserialize dearmorBase64
            ⟨some kUndefinedNodeId, some kUndefinedNodeId, 0, 0, List.replicate 32 0, 32,
              false⟩)).map (fun t => t.mPeerNodeId) = some (some kUndefinedNodeId) ∧
      (((SecurePairingUsingTestSecret.constructWithIds
        ⟨some kUndefinedNodeId, some kUndefinedNodeId, 0, 0, List.replicate 32 0, 32, false⟩
        none 6 7).ToSerializable).bind
          (FromSerializable
            ⟨some kUndefinedNodeId, some kUndefinedNodeId, 0, 0, List.replicate 32 0, 32,
              false⟩)).map (fun t => t.mPeerNodeId) = some (some kUndefinedNodeId) := by
  decide

/-- C18 (amended): for every pairing session state whose Ke length is at most the
maximum (Ke bytes in the Ke buffer, completion flag, node ids and key ids in the range
of their types), `Serialize` followed by `Deserialize` into a fresh session succeeds,
and the fresh session has the same Ke length, Ke bytes, completion flag and key ids;
each node id is read back as the value the session held, or as the undefined node id
when the session's `Optional` node id held no value, so the node ids are identical when
both hold a value; likewise `FromSerializable` after `ToSerializable`. -/
theorem serialize_deserialize_roundtrip (s fresh : SecurePairingSession)
    (hlen : s.mKeLen ≤ kMAX_Hash_Length) (hbuf : s.mKe.length = kMAX_Hash_Length)
    (hbytes : ∀ b, b ∈ s.mKe → b < 256)
    (hl64 : s.mLocalNodeId.getD kUndefinedNodeId < 2 ^ 64)
    (hq64 : s.mPeerNodeId.getD kUndefinedNodeId < 2 ^ 64)
    (hlk : s.mLocalKeyId < 2 ^ 16) (hpk : s.mPeerKeyId < 2 ^ 16) :
    (∃ text t, s.Serialize armorBase64 = some text ∧
      fresh.Deserialize dearmorBase64 text = some t ∧
      t.mKeLen = s.mKeLen ∧ t.mKe.take t.mKeLen = s.mKe.take s.mKeLen ∧
      t.mPairingComplete = s.mPairingComplete ∧
      t.mLocalNodeId = some (s.mLocalNodeId.getD kUndefinedNodeId) ∧
      t.mPeerNodeId = some (s.mPeerNodeId.getD kUndefinedNodeId) ∧
      (s.mLocalNodeId.isSome = true → t.mLocalNodeId = s.mLocalNodeId) ∧
      (s.mPeerNodeId.isSome = true → t.mPeerNodeId = s.mPeerNodeId) ∧
      t.mLocalKeyId = s.mLocalKeyId ∧ t.mPeerKeyId = s.mPeerKeyId) ∧
    (∃ r t, s.ToSerializable = some r ∧ fresh.FromSerializable r = some t ∧
      t.mKeLen = s.mKeLen ∧ t.mKe.take t.mKeLen = s.mKe.take s.mKeLen ∧
      t.mPairingComplete = s.mPairingComplete ∧
      t.mLocalNodeId = some (s.mLocalNodeId.getD kUndefinedNodeId) ∧
      t.mPeerNodeId = some (s.mPeerNodeId.getD kUndefinedNodeId) ∧
      (s.mLocalNodeId.isSome = true → t.mLocalNodeId = s.mLocalNodeId) ∧
      (s.mPeerNodeId.isSome = true → t.mPeerNodeId = s.mPeerNodeId) ∧
      t.mLocalKeyId = s.mLocalKeyId ∧ t.mPeerKeyId = s.mPeerKeyId) := by
  obtain ⟨r, t, h1, h2, harmor, g1, g2, g3, g4, g5, g6, g7⟩ :=
    fromSerializable_toSerializable s fresh hlen hbuf hbytes hl64 hq64 hlk hpk
  have hl : s.mLocalNodeId.isSome = true → t.mLocalNodeId = s.mLocalNodeId := by
    intro h
    obtain ⟨l, hl⟩ := Option.isSome_iff_exists.1 h
    rw [g4, hl]
    rfl
  have hq : s.mPeerNodeId.isSome = true → t.mPeerNodeId = s.mPeerNodeId := by
    intro h
    obtain ⟨q, hq⟩ := Option.isSome_iff_exists.1 h
    rw [g5, hq]
    rfl
  refine ⟨⟨armorBase64 r, t, ?_, ?_, g1, g2, g3, g4, g5, hl, hq, g6, g7⟩,
    ⟨r, t, h1, h2, g1, g2, g3, g4, g5, hl, hq, g6, g7⟩⟩
  · simp only [Serialize, h1]
  · simp only [Deserialize, harmor, h2]

/-- Witness for `serialize_deserialize_roundtrip`: the fixed-secret session with local
node id 1, peer node id 5 and key ids 6 and 7, and a fresh session with an all-zero Ke
buffer. -/
theorem serialize_deserialize_roundtrip_witness :
    ∃ text t, (SecurePairingUsingTestSecret.constructWithIds
        ⟨some 1, some kUndefinedNodeId, 0, 0, List.replicate 32 0, 32, false⟩
        (some 5) 6 7).Serialize armorBase64 = some text ∧
      Deserialize dearmorBase64 ⟨none, none, 0, 0, List.replicate 32 0, 32, false⟩ text =
        some t ∧
      t.mKeLen = 30 ∧ t.mPairingComplete = true ∧
      t.mLocalNodeId = some 1 ∧ t.mPeerNodeId = some 5 ∧
      t.mLocalKeyId = 7 ∧ t.mPeerKeyId = 6 :=
  match (serialize_deserialize_roundtrip
    (SecurePairingUsingTestSecret.constructWithIds
      ⟨some 1, some kUndefinedNodeId, 0, 0, List.replicate 32 0, 32, false⟩ (some 5) 6 7)
    ⟨none, none, 0, 0, List.replicate 32 0, 32, false⟩
    (by decide) (by decide) (by decide) (by decide) (by decide) (by decide) (by decide)).1 with
  | ⟨text, t, h1, h2, g1, _, g3, g4, g5, _, _, g6, g7⟩ =>
    ⟨text, t, h1, h2, g1, g3, g4, g5, g6, g7⟩

end SecurePairingSession

end chip
